import Mathlib

/- Verification development for the fixed-form Fortran 77 linter
   (`linter/fortran.py`).  The Python module builds on a small
   parser-combinator library that lives in the package `__init__`;
   that library file is not part of the sources here, so its
   primitives are modelled from the specification (each such
   definition carries a doc comment starting `Modelled from the
   spec:`).  Everything else is translated directly from
   `linter/fortran.py`.

   Strings are modelled as `List Char` (`Str`); Python's `str.lower`
   and character classes are modelled for ASCII input, which is the
   input domain of fixed-form Fortran 77 sources. -/

set_option maxHeartbeats 4000000
set_option maxRecDepth 4000

abbrev Str := List Char

/-- ASCII lowering, the model of Python's `str.lower` on the ASCII range. -/
def low (c : Char) : Char :=
  if 65 ≤ c.toNat ∧ c.toNat ≤ 90 then Char.ofNat (c.toNat + 32) else c

/-- Characters treated as blanks by `spaces` (spaces and tabs). -/
def isBlankC (c : Char) : Bool := c == ' ' || c == '\t'

/-- Characters stripped by Python's `str.strip` family. -/
def pySpaceC (c : Char) : Bool :=
  c == ' ' || c == '\t' || c == '\n' || c == '\r' || c == '\x0b' || c == '\x0c'

/-- Modelled from the spec: the leading-blank skip performed by `liberal`
and `scan` (`spaces` as a skip may consume zero blanks, as keywords start
at the first code column and labels may sit flush in their field). -/
def dropSp (s : Str) : Str := s.dropWhile isBlankC

/-- Model of Python's `str.rstrip`. -/
def rstrip (s : Str) : Str := (s.reverse.dropWhile pySpaceC).reverse

/-- Convenience: the character list of a string literal. -/
def chs (s : String) : Str := s.data

/-- A lexical token: a tag and the exact source substring (`Token` in the
source). -/
structure Tok where
  tag : String
  value : Str
deriving DecidableEq, BEq, Repr

/-- A character-level parser returns the consumed text and the rest. -/
abbrev CP := Str → Option (Str × Str)

/-- Modelled from the spec: `exact` - match a literal, case sensitively. -/
def litMatch : Str → CP
  | [], s => some ([], s)
  | _ :: _, [] => none
  | p :: ps, c :: cs =>
      if c = p then (litMatch ps cs).map (fun vr => (c :: vr.1, vr.2)) else none

/-- Modelled from the spec: `exact` with `ignore_case` (`inexact`); the
pattern is given lowercase, the value keeps the input's case. -/
def ciMatchV : Str → CP
  | [], s => some ([], s)
  | _ :: _, [] => none
  | p :: ps, c :: cs =>
      if low c = p then (ciMatchV ps cs).map (fun vr => (c :: vr.1, vr.2)) else none

/-- Modelled from the spec: `satisfies` on a single character. -/
def satC (p : Char → Bool) : CP
  | [] => none
  | c :: cs => if p c then some ([c], cs) else none

/-- Modelled from the spec: `one_of`. -/
def oneOfC (set : List Char) : CP := satC (fun c => set.contains c)

/-- Modelled from the spec: sequencing `a + b` with string concatenation. -/
def seqC (a b : CP) : CP := fun s =>
  (a s).bind fun vr => (b vr.2).map (fun wr => (vr.1 ++ wr.1, wr.2))

/-- Modelled from the spec: ordered choice `a | b`. -/
def altC (a b : CP) : CP := fun s =>
  match a s with
  | some x => some x
  | none => b s

/-- Modelled from the spec: `a.optional()`, yielding an empty value on
failure. -/
def optC (a : CP) : CP := fun s =>
  match a s with
  | some x => some x
  | none => some ([], s)

/-- Modelled from the spec: a greedy `many` of a single-character
predicate, as a total span. -/
def spanC (p : Char → Bool) (s : Str) : Str × Str := (s.takeWhile p, s.dropWhile p)

/-- Modelled from the spec: one-or-more characters satisfying `p`. -/
def spanC1 (p : Char → Bool) : CP := fun s =>
  let t := s.takeWhile p
  if t.isEmpty then none else some (t, s.dropWhile p)

/-- Grammar atom: `digit.many()` (possibly empty), `// join`. -/
def digitsC0 : CP := fun s => some (spanC Char.isDigit s)

/-- Grammar atom: `+digit`, `// join`. -/
def digitsC1 : CP := spanC1 Char.isDigit

/-- Grammar atom: `one_of("+-").optional()`. -/
def signC : CP := optC (oneOfC ['+', '-'])

/-- Grammar atom: integer literal - optional sign and one or more digits. -/
def integerC : CP := seqC signC digitsC1

/-- Grammar atom: basic real - optional sign, digits, a dot, more digits. -/
def basicRealC : CP := seqC signC (seqC digitsC1 (seqC (litMatch ['.']) digitsC0))

/-- Grammar atom: single-precision exponent part `eE integer`. -/
def singleExpC : CP := seqC (oneOfC ['e', 'E']) integerC

/-- Grammar atom: double-precision exponent part `dD integer`. -/
def doubleExpC : CP := seqC (oneOfC ['d', 'D']) integerC

/-- Grammar atom: single-precision real. -/
def singleC : CP := altC (seqC basicRealC (optC singleExpC)) (seqC integerC singleExpC)

/-- Grammar atom: double-precision real. -/
def doubleC : CP := seqC (altC basicRealC integerC) doubleExpC

/-- Grammar atom: real literal, `double | single`. -/
def realC : CP := altC doubleC singleC

/-- Grammar atom: logical literal `.true. | .false.` (case insensitive). -/
def logicalC : CP := altC (ciMatchV (chs ".true.")) (ciMatchV (chs ".false."))

/-- Grammar atom: a run of characters other than `q` (possibly empty). -/
def notSpan (q : Char) : CP := fun s => some (spanC (fun c => !(c == q)) s)

/-- Grammar atom: one quoted segment of a character literal. -/
def charSegC : CP :=
  altC (seqC (litMatch ['"']) (seqC (notSpan '"') (litMatch ['"'])))
       (seqC (litMatch ['\'']) (seqC (notSpan '\'') (litMatch ['\''])))

/-- Grammar atom: one-or-more adjacent quoted segments, fuelled (each
segment consumes at least two characters, so `length + 1` fuel is ample). -/
def charSegsFuel : Nat → CP
  | 0, _ => none
  | fuel + 1, s =>
      (charSegC s).bind fun vr =>
        match charSegsFuel fuel vr.2 with
        | none => some vr
        | some wr => some (vr.1 ++ wr.1, wr.2)

/-- Grammar atom: character (string) literal. -/
def characterC : CP := fun s => charSegsFuel (s.length + 1) s

/-- Grammar atom: comment token - `!` to end of line. -/
def commentC : CP := seqC (litMatch ['!']) (notSpan '\n')

/-- Grammar atom: Fortran identifier - a letter then alphanumerics. -/
def nameC : CP :=
  seqC (satC Char.isAlpha) (fun s => some (spanC (fun c => c.isAlpha || c.isDigit) s))

/-- Modelled from the spec: `spaces` as a token alternative consumes one
or more blanks (a zero-width repetition element could not be an element
of `many`). -/
def spacesC : CP := spanC1 isBlankC

/-- Modelled from the spec: `wildcard` consumes one arbitrary character. -/
def wildcardC : CP
  | [] => none
  | c :: cs => some ([c], cs)

/-- The ordered alternatives of `Grammar.single_token`, except the final
`wildcard` fallback, in source order. -/
def tagAlts : List (String × CP) :=
  [("character", characterC),
   ("comment", commentC),
   ("logical", logicalC),
   ("lt", ciMatchV (chs ".lt.")),
   ("le", ciMatchV (chs ".le.")),
   ("eq", ciMatchV (chs ".eq.")),
   ("ne", ciMatchV (chs ".ne.")),
   ("gt", ciMatchV (chs ".gt.")),
   ("ge", ciMatchV (chs ".ge.")),
   ("not", ciMatchV (chs ".not.")),
   ("and", ciMatchV (chs ".and.")),
   ("or", ciMatchV (chs ".or.")),
   ("eqv", ciMatchV (chs ".eqv.")),
   ("neqv", ciMatchV (chs ".neqv.")),
   ("real", realC),
   ("integer", integerC),
   ("name", nameC),
   ("equals", litMatch ['=']),
   ("plus", litMatch ['+']),
   ("minus", litMatch ['-']),
   ("exponent", litMatch ['*', '*']),
   ("times", litMatch ['*']),
   ("concat", litMatch ['/', '/']),
   ("slash", litMatch ['/']),
   ("lparen", litMatch ['(']),
   ("rparen", litMatch [')']),
   ("dot", litMatch ['.']),
   ("comma", litMatch [',']),
   ("dollar", litMatch ['$']),
   ("apostrophe", litMatch ['\'']),
   ("quote", litMatch ['"']),
   ("colon", litMatch [':']),
   ("langle", litMatch ['<']),
   ("rangle", litMatch ['>']),
   ("whitespace", spacesC)]

/-- Try tagged alternatives in order, wrapping the value as a token. -/
def firstTok : List (String × CP) → Str → Option (Tok × Str)
  | [], _ => none
  | (t, p) :: rest, s =>
      match p s with
      | some vr => some (⟨t, vr.1⟩, vr.2)
      | none => firstTok rest s

/-- `Grammar.single_token`: the tagged alternatives with the `wildcard`
fallback producing an `unknown` token. -/
def nextToken (s : Str) : Option (Tok × Str) :=
  match firstTok tagAlts s with
  | some x => some x
  | none => (wildcardC s).map (fun vr => (⟨"unknown", vr.1⟩, vr.2))

/-- Greedy repetition of `single_token`, fuelled; returns the tokens and
the unconsumed rest. -/
def tokenizeFuel : Nat → Str → List Tok × Str
  | 0, s => ([], s)
  | fuel + 1, s =>
      match nextToken s with
      | none => ([], s)
      | some tr =>
          let p := tokenizeFuel fuel tr.2
          (tr.1 :: p.1, p.2)

/-- `Grammar.tokenizer.parse`: run `single_token.many()` and require the
whole input to be consumed. -/
def tokenizerParse (s : Str) : Option (List Tok) :=
  let p := tokenizeFuel (s.length + 1) s
  if p.2.isEmpty then some p.1 else none

/-- Concatenation of the `value` fields of a token list. -/
def joinVals (ts : List Tok) : Str := (ts.map Tok.value).flatten

/-- Soundness of a character parser: the value is the consumed prefix. -/
def Sd (p : CP) : Prop := ∀ s v r, p s = some (v, r) → v ++ r = s

/-- Progress of a character parser: success consumes at least one char. -/
def Ne1 (p : CP) : Prop := ∀ s v r, p s = some (v, r) → v ≠ []

/-- Case-insensitive keyword match (`inexact` inside `keyword`): consume
the pattern (given lowercase), return the rest of the input. -/
def ciKw : Str → Str → Option Str
  | [], s => some s
  | _ :: _, [] => none
  | p :: ps, c :: cs => if low c = p then ciKw ps cs else none

/-- Modelled from the spec: the matcher of `sum_parsers([keyword(w) for w
in words])` run by `scan` - each keyword skips optional blanks on both
sides; returns the end of the match (the `tokens_after` start). -/
def matchWords : List Str → Str → Option Str
  | [], s => some s
  | w :: ws, s =>
      match ciKw w (dropSp s) with
      | none => none
      | some r => matchWords ws (dropSp r)

/-- The canonical space-joined form of a keyword phrase. -/
def joinWords (ws : List Str) : String := " ".intercalate (ws.map List.asString)

/-- `Grammar.statements["all"]` in declaration order: executable
(control block, control nonblock, assign, io) then non-executable
(specification, misc nonexec, top level). -/
def allPhrases : List (List Str) :=
  [[chs "if"], [chs "else", chs "if"], [chs "else"], [chs "end", chs "if"],
   [chs "do"], [chs "end", chs "do"],
   [chs "go", chs "to"], [chs "call"], [chs "return"], [chs "continue"],
   [chs "stop"], [chs "pause"],
   [chs "assign"],
   [chs "read"], [chs "write"], [chs "print"], [chs "rewind"],
   [chs "backspace"], [chs "endfile"], [chs "open"], [chs "close"],
   [chs "inquire"],
   [chs "integer"], [chs "real"], [chs "double", chs "precision"],
   [chs "complex"], [chs "logical"], [chs "character"],
   [chs "dimension"], [chs "common"], [chs "equivalence"], [chs "implicit"],
   [chs "parameter"], [chs "external"], [chs "intrinsic"], [chs "save"],
   [chs "entry"], [chs "data"], [chs "format"],
   [chs "program"], [chs "end", chs "program"], [chs "function"],
   [chs "end", chs "function"], [chs "subroutine"],
   [chs "end", chs "subroutine"], [chs "block", chs "data"],
   [chs "end", chs "block", chs "data"], [chs "end"]]

/-- First phrase of the catalog whose matcher succeeds on the code, with
the end position of the match. -/
def firstMatch : List (List Str) → Str → Option (String × Str)
  | [], _ => none
  | ws :: rest, code =>
      match matchWords ws code with
      | some r => some (joinWords ws, r)
      | none => firstMatch rest code

/-- Statement detection over `statements["all"]`; on no match the
statement is `assignment` and the rest is the whole code. -/
def detectStatement (code : Str) : String × Str :=
  (firstMatch allPhrases code).getD ("assignment", code)

/-- The numeric value of a digit string (`int` on the label field). -/
def digitsToNat (ds : Str) : Nat := ds.foldl (fun n c => n * 10 + (c.toNat - 48)) 0

/-- The label-field parse `(liberal(Grammar.label) // int).parse`:
optional blanks, one to five digits, optional blanks, end of input. -/
def labelParse (sl : Str) : Option Nat :=
  let t := dropSp sl
  let ds := t.takeWhile Char.isDigit
  if ds.isEmpty then none
  else if 5 < ds.length then none
  else if (dropSp (t.dropWhile Char.isDigit)).isEmpty then some (digitsToNat ds)
  else none

/-- One classified physical line (`RawLine` in the source).  For
`comment` lines the source object carries only `original`; the remaining
fields are dummies here (`code = []`, no tokens, empty statement). -/
structure RawLineData where
  original : Str
  type : String
  code : Str
  tokens : List Tok
  tokensAfter : List Tok
  cont : Str
  label : Option Nat
  statement : String
deriving DecidableEq, BEq, Repr

/-- The comment test of `RawLine.__init__`:
`matches(EOF | one_of("*c") | keyword("!"), lowered)` on the
right-stripped, lowered line. -/
def isCommentLine (line : Str) : Bool :=
  let lowered := (rstrip line).map low
  lowered.isEmpty || lowered.head? == some '*' || lowered.head? == some 'c' ||
    (dropSp lowered).head? == some '!'

/-- `RawLine.__init__`: classify one physical line.  `none` models an
exception escaping the constructor (a failed assertion on the
continuation label field, or an unparsable label field). -/
def mkRawLine (line : Str) : Option RawLineData :=
  let lowered := (rstrip line).map low
  if isCommentLine line then
    some ⟨line, "comment", [], [], [], [], none, ""⟩
  else
    match tokenizerParse (line.drop 6) with
    | none => none
    | some toks =>
      if 5 < lowered.length &&
          !(lowered.getD 5 ' ' == '0' || lowered.getD 5 ' ' == ' ') then
        if (lowered.take 5).all pySpaceC then
          some ⟨line, "continuation", line.drop 6, toks, toks,
                (line.drop 5).take 1, none, ""⟩
        else none
      else
        let sl := lowered.take 5
        let lblStep : Option (Option Nat) :=
          if sl.any (fun c => !pySpaceC c) then (labelParse sl).map some
          else some none
        match lblStep with
        | none => none
        | some lbl =>
          let pr := detectStatement (line.drop 6)
          match tokenizerParse pr.2 with
          | none => none
          | some ta => some ⟨line, "initial", line.drop 6, toks, ta, [], lbl, pr.1⟩

/-- The claim's comment criterion, following the claim's words: the
both-ends-trimmed lowered line is empty or begins with `c`, `*` or `!`. -/
def c5ClaimTrimmed (line : Str) : Bool :=
  let t := (((line.dropWhile pySpaceC).reverse.dropWhile pySpaceC).reverse).map low
  t.isEmpty || t.head? == some 'c' || t.head? == some '*' || t.head? == some '!'

/-- One logical line (`LogicalLine` in the source): an initial line with
its surrounding comment and continuation lines merged. -/
structure LogicalLineData where
  children : List RawLineData
  statement : String
  label : Option Nat
  code : Str
  tokens : List Tok
  tokensAfter : List Tok
deriving DecidableEq, BEq, Repr

/-- `LogicalLine.__init__`: requires exactly one initial child (the
source asserts this); `code` joins the code of non-comment children with
newlines, `tokens` and `tokens_after` concatenate theirs. -/
def mkLogicalLine (children : List RawLineData) : Option LogicalLineData :=
  match children.filter (fun l => l.type == "initial") with
  | [ini] =>
      let codeLines := children.filter (fun l => !(l.type == "comment"))
      some ⟨children, ini.statement, ini.label,
            List.intercalate (chs "\n") (codeLines.map RawLineData.code),
            (codeLines.map RawLineData.tokens).flatten,
            (codeLines.map RawLineData.tokensAfter).flatten⟩
  | _ => none

/-- Modelled from the spec: `parse_into_logical_lines`, the grammar
`(comment* initial (comment | continuation)*)*` required to consume all
lines.  The runs of comments and continuations are forced by the line
types, so the greedy reading used here coincides with the engine's
backtracking reading. -/
def plgAux : Nat → List RawLineData → Option (List LogicalLineData)
  | 0, _ => none
  | _ + 1, [] => some []
  | fuel + 1, l0 :: ls0 =>
      let rls := l0 :: ls0
      let cs := rls.takeWhile (fun l => l.type == "comment")
      match rls.dropWhile (fun l => l.type == "comment") with
      | [] => none
      | ini :: rest2 =>
          if ini.type == "initial" then
            let tail := rest2.takeWhile
              (fun l => l.type == "comment" || l.type == "continuation")
            let rest3 := rest2.dropWhile
              (fun l => l.type == "comment" || l.type == "continuation")
            match mkLogicalLine (cs ++ [ini] ++ tail) with
            | none => none
            | some ll => (plgAux fuel rest3).map (ll :: ·)
          else none

/-- Group raw lines into logical lines (`parse_into_logical_lines`). -/
def parseIntoLogicalLines (rls : List RawLineData) : Option (List LogicalLineData) :=
  plgAux (rls.length + 1) rls

/-- A node of the parse tree: a logical line, an `InnerBlock`, or an
`OuterBlock` with its statement tag. -/
inductive Blk where
  | line (l : LogicalLineData)
  | inner (children : List Blk)
  | outer (statement : String) (children : List Blk)

/-- Modelled from the spec: a backtracking parser over the logical-line
stream; each entry of the result list is one alternative `(value, rest)`
in the engine's preference order, and `parse` picks the first
alternative that consumes the whole stream. -/
def BP := List LogicalLineData → List (List Blk × List LogicalLineData)

/-- Modelled from the spec: `satisfies` on one logical line, wrapped as
`// singleton` (the shape used by `one_of_types` and `none_of_types`). -/
def bpSat (p : LogicalLineData → Bool) : BP := fun s =>
  match s with
  | [] => []
  | l :: r => if p l then [([Blk.line l], r)] else []

/-- Modelled from the spec: ordered choice on the logical-line stream. -/
def bpAlt (p q : BP) : BP := fun s => p s ++ q s

/-- Modelled from the spec: `many` with list-concatenated values, fuelled;
longer repetitions are preferred, matching the engine. -/
def bpManyOf (p : BP) : Nat → BP
  | 0 => fun s => [([], s)]
  | fuel + 1 => fun s =>
      ((p s).flatMap fun ar => (bpManyOf p fuel ar.2).map fun br =>
        (ar.1 ++ br.1, br.2)) ++ [([], s)]

/-- Modelled from the spec: `many` of a line predicate with the matched
lines as value (the shape feeding `inner_block`). -/
def manyLinesP (p : LogicalLineData → Bool) :
    Nat → List LogicalLineData → List (List LogicalLineData × List LogicalLineData)
  | 0 => fun s => [([], s)]
  | fuel + 1 => fun s =>
      match s with
      | [] => [([], [])]
      | l :: r =>
          if p l then
            ((manyLinesP p fuel r).map fun vr => (l :: vr.1, vr.2)) ++ [([], l :: r)]
          else [([], l :: r)]

/-- The statements accepted by `non_block`: io, assign, specification,
misc nonexec and control nonblock. -/
def nonBlockStmts : List String :=
  ["read", "write", "print", "rewind", "backspace", "endfile", "open",
   "close", "inquire", "assign", "integer", "real", "double precision",
   "complex", "logical", "character", "dimension", "common", "equivalence",
   "implicit", "parameter", "external", "intrinsic", "save", "entry",
   "data", "format", "go to", "call", "return", "continue", "stop", "pause"]

/-- The top level statements (`statements["top level"]`). -/
def topLevelStmts : List String :=
  ["program", "end program", "function", "end function", "subroutine",
   "end subroutine", "block data", "end block data", "end"]

/-- The `new_style_if` guard: some `name` token of `tokens_after` lowers
to `then`. -/
def hasThen (l : LogicalLineData) : Bool :=
  l.tokensAfter.any (fun t => t.tag == "name" && (t.value.map low) == chs "then")

/-- The matcher `keyword("do") + liberal(label)` applied by the
`new_style_do` guard to the lowered code: `do` followed by a label. -/
def doLabelMatch (code : Str) : Bool :=
  match ciKw (chs "do") (dropSp code) with
  | none => false
  | some r => !((dropSp r).takeWhile Char.isDigit).isEmpty

/-- The `new_style_do` guard: the `do` line carries no numeric label. -/
def newStyleDo (l : LogicalLineData) : Bool := !doLabelMatch l.code

/-- `else_if_statement | else_statement`, made optional (the `section`
tail); the present alternative is preferred. -/
def elseOptP : BP := fun s =>
  (bpSat (fun l => l.statement == "else if" || l.statement == "else") s) ++ [([], s)]

mutual

/-- The `if_block` parser: a guarded `if` line, `section.many()`, and an
`end if` line, wrapped as `OuterBlock("if_block")`. -/
def ifBlockP : Nat → BP
  | 0 => fun _ => []
  | fuel + 1 => fun s =>
      match s with
      | [] => []
      | l :: rest =>
          if l.statement == "if" && hasThen l then
            (bpManyOf (sectionP fuel) fuel rest).flatMap fun sr =>
              match sr.2 with
              | [] => []
              | e :: rest2 =>
                  if e.statement == "end if" then
                    [([Blk.outer "if_block"
                        ([Blk.line l] ++ sr.1 ++ [Blk.line e])], rest2)]
                  else []
          else []

/-- One `section` of an `if` block: a body wrapped as an `InnerBlock`
when non-empty, an optional `else`/`else if` line, guarded non-empty. -/
def sectionP : Nat → BP
  | 0 => fun _ => []
  | fuel + 1 => fun s =>
      (bpManyOf (innerElemIfP fuel) fuel s).flatMap fun br =>
        (elseOptP br.2).filterMap fun er =>
          let v := (if br.1.isEmpty then [] else [Blk.inner br.1]) ++ er.1
          if v.isEmpty then none else some (v, er.2)

/-- One body element inside an `if` block:
`non_block | do_block | if_block | none_of_types(end if, else if, else)`. -/
def innerElemIfP : Nat → BP
  | 0 => fun _ => []
  | fuel + 1 => fun s =>
      bpAlt (bpSat (fun l => nonBlockStmts.contains l.statement))
        (bpAlt (doBlockP fuel)
          (bpAlt (ifBlockP fuel)
            (bpSat (fun l =>
              !(["end if", "else if", "else"].contains l.statement))))) s

/-- The `do_block` parser: a guarded `do` line, a body always wrapped as
an `InnerBlock`, and an `end do` line, as `OuterBlock("do_block")`. -/
def doBlockP : Nat → BP
  | 0 => fun _ => []
  | fuel + 1 => fun s =>
      match s with
      | [] => []
      | l :: rest =>
          if l.statement == "do" && newStyleDo l then
            (bpManyOf (innerElemDoP fuel) fuel rest).flatMap fun br =>
              match br.2 with
              | [] => []
              | e :: rest2 =>
                  if e.statement == "end do" then
                    [([Blk.outer "do_block"
                        ([Blk.line l] ++ [Blk.inner br.1] ++ [Blk.line e])], rest2)]
                  else []
          else []

/-- One body element inside a `do` block:
`non_block | do_block | if_block | none_of_types(end do)`. -/
def innerElemDoP : Nat → BP
  | 0 => fun _ => []
  | fuel + 1 => fun s =>
      bpAlt (bpSat (fun l => nonBlockStmts.contains l.statement))
        (bpAlt (doBlockP fuel)
          (bpAlt (ifBlockP fuel)
            (bpSat (fun l => !(l.statement == "end do"))))) s

end

/-- `block_or_line` - the element of an `InnerBlock`'s own parse:
`non_block | do_block | if_block | wildcard`. -/
def blockOrLineP (fuel : Nat) : BP :=
  bpAlt (bpSat (fun l => nonBlockStmts.contains l.statement))
    (bpAlt (doBlockP fuel)
      (bpAlt (ifBlockP fuel)
        (fun s => match s with
          | [] => []
          | l :: r => [([Blk.line l], r)])))

/-- `InnerBlock.__init__`: parse the collected lines with
`block_or_line.many().parse`, i.e. take the first alternative consuming
everything. -/
def innerOf (fuel : Nat) (ls : List LogicalLineData) : Option Blk :=
  ((bpManyOf (blockOrLineP fuel) fuel ls).find? (fun vr => vr.2.isEmpty)).map
    (fun vr => Blk.inner vr.1)

/-- `mid_lines` of a top level block: lines outside the top-level
statements, wrapped by `inner_block` (whose construction re-parses them). -/
def midP (fuel : Nat) : BP := fun s =>
  (manyLinesP (fun l => !(topLevelStmts.contains l.statement)) fuel s).filterMap
    (fun vr => (innerOf fuel vr.1).map (fun b => ([b], vr.2)))

/-- `top_level_block(kind)`: optional or required first line, the body,
and `end <kind>` or bare `end`, wrapped as the `<kind>_block`. -/
def topLevelBlockP (kind : String) (blkStmt : String) (optFirst : Bool)
    (fuel : Nat) : BP := fun s =>
  let firstRes :=
    if optFirst then (bpSat (fun l => l.statement == kind) s) ++ [([], s)]
    else bpSat (fun l => l.statement == kind) s
  firstRes.flatMap fun fr =>
    (midP fuel fr.2).flatMap fun mr =>
      (bpSat (fun l => l.statement == ("end " ++ kind) || l.statement == "end")
          mr.2).map
        fun er => ([Blk.outer blkStmt (fr.1 ++ mr.1 ++ er.1)], er.2)

/-- `program_unit = function | subroutine | block_data | main_program`. -/
def programUnitP (fuel : Nat) : BP :=
  bpAlt (topLevelBlockP "function" "function_block" false fuel)
    (bpAlt (topLevelBlockP "subroutine" "subroutine_block" false fuel)
      (bpAlt (topLevelBlockP "block data" "block_data_block" false fuel)
        (topLevelBlockP "program" "program_block" true fuel)))

/-- `+program_unit // outer_block("source_file")`. -/
def sourceP (fuel : Nat) : BP := fun s =>
  (programUnitP fuel s).flatMap fun ar =>
    (bpManyOf (programUnitP fuel) fuel ar.2).map fun br =>
      ([Blk.outer "source_file" (ar.1 ++ br.1)], br.2)

/-- `parse_source`: run the source grammar and require full consumption,
taking the engine's first full parse. -/
def parseSource (lls : List LogicalLineData) : Option Blk :=
  match (sourceP (8 * lls.length + 8) lls).find? (fun vr => vr.2.isEmpty) with
  | some vr =>
      match vr.1 with
      | [b] => some b
      | _ => none
  | none => none

/-- Take one line of text, up to and including a newline. -/
def takeLine : Str → Str × Str
  | [] => ([], [])
  | c :: cs =>
      if c = '\n' then ([c], cs)
      else
        let p := takeLine cs
        (c :: p.1, p.2)

/-- Split a file into its lines, keeping the newline characters, as
Python's file iteration does. -/
def splitLinesAux : Nat → Str → List Str
  | 0, _ => []
  | _ + 1, [] => []
  | fuel + 1, c :: cs =>
      let p := takeLine (c :: cs)
      p.1 :: splitLinesAux fuel p.2

/-- The lines of a source text (`read_file` line iteration). -/
def splitLines (s : Str) : List Str := splitLinesAux (s.length + 1) s

/-- `read_file`: classify every line; any constructor failure aborts. -/
def mapMRawLines : List Str → Option (List RawLineData)
  | [] => some []
  | l :: ls =>
      match mkRawLine l with
      | none => none
      | some r => (mapMRawLines ls).map (r :: ·)

/-- `parse_file`: raw lines, then logical lines, then the block tree. -/
def parsePipeline (s : Str) : Option Blk :=
  match mapMRawLines (splitLines s) with
  | none => none
  | some rls =>
      match parseIntoLogicalLines rls with
      | none => none
      | some lls => parseSource lls

mutual

/-- The logical lines of a tree node in visitor traversal order. -/
def flatB : Blk → List LogicalLineData
  | .line l => [l]
  | .inner cs => flatBs cs
  | .outer _ cs => flatBs cs

/-- The logical lines of a node list in traversal order. -/
def flatBs : List Blk → List LogicalLineData
  | [] => []
  | b :: bs => flatB b ++ flatBs bs

end

/-- The raw lines of a tree in visitor traversal order. -/
def rawLinesOfB (b : Blk) : List RawLineData :=
  (flatB b).flatMap LogicalLineData.children

/-- The `plain` visitor: every raw line contributes its `original`, and
`top_level` joins the pieces. -/
def plainOf (b : Blk) : Str :=
  ((rawLinesOfB b).map RawLineData.original).flatten

/-- The label formatting of `reconstruct`:
`"{:<6}".format(label)` - the decimal label left-aligned to width 6. -/
def padLabel (n : Nat) : Str :=
  let ds := (toString n).data
  ds ++ List.replicate (6 - ds.length) ' '

/-- The `reconstruct` visitor on one raw line: comments pass through;
continuations get five spaces and the mark; initial lines get the
formatted label or six spaces; then the token values. -/
def reconLine (r : RawLineData) : Str :=
  if r.type == "comment" then r.original
  else if r.type == "continuation" then
    List.replicate 5 ' ' ++ r.cont ++ joinVals r.tokens
  else
    (match r.label with
     | some n => padLabel n
     | none => List.replicate 6 ' ') ++ joinVals r.tokens

/-- The `reconstruct` visitor over a tree. -/
def reconstructOf (b : Blk) : Str :=
  ((rawLinesOfB b).map reconLine).flatten

/-- `new_comments` as a text transform on the classified lines: a comment
line whose original starts with `c` or `*` (case-sensitively, as
`matches(one_of("c*"), line.original)` tests the unlowered original) is
replaced by `RawLine("!" + original[1:])`, whose printed form is that new
original; everything else passes through; the result is joined by the
`plain`-printing `str`. -/
def newCommentsStr (rls : List RawLineData) : Str :=
  (rls.map (fun r =>
    if r.type == "comment" then
      match r.original with
      | c :: rest => if c = 'c' ∨ c = '*' then '!' :: rest else r.original
      | [] => r.original
    else r.original)).flatten

/-- `int` applied to the text of an `integer` token. -/
def intVal (s : Str) : Int :=
  match s with
  | '-' :: ds => -(digitsToNat ds : Int)
  | '+' :: ds => (digitsToNat ds : Int)
  | ds => (digitsToNat ds : Int)

/-- The integer-token values of a logical line's `tokens_after`. -/
def intToksOf (ll : LogicalLineData) : List Int :=
  ll.tokensAfter.filterMap
    (fun t => if t.tag == "integer" then some (intVal t.value) else none)

/-- The `Label` visitor of `analyze_labels`: paired (1-based logical line
number, label) for every labeled non-`format` logical line. -/
def labelsOf (mb : Blk) : List (Nat × Nat) :=
  (flatB mb).enum.filterMap (fun p =>
    match p.2.label with
    | some lbl => if p.2.statement == "format" then none else some (p.1 + 1, lbl)
    | none => none)

/-- The `Occurrences` visitor: the 1-based line numbers of the logical
lines whose `tokens_after` contain an integer token equal to the label. -/
def refsOf (mb : Blk) (lbl : Nat) : List Nat :=
  (flatB mb).enum.filterMap (fun p =>
    if (intToksOf p.2).contains (lbl : Int) then some (p.1 + 1) else none)

/-- The reference-collection loop of `analyze_labels`: one `Occurrences`
walk is appended per declaration entry of the label. -/
def occurAfterRefs (mb : Blk) (lbl : Nat) : List Nat :=
  (labelsOf mb).foldl
    (fun acc dl => if dl.2 == lbl then acc ++ refsOf mb lbl else acc) []

/-- The declaration-insertion loop of `analyze_labels`: each declaration
line is sorted into the label's occurrence list after collection. -/
def occurFinal (mb : Blk) (lbl : Nat) : List Nat :=
  (labelsOf mb).foldl
    (fun acc dl =>
      if dl.2 == lbl then List.insertionSort (· ≤ ·) (acc ++ [dl.1]) else acc)
    (occurAfterRefs mb lbl)

/-- `analyze_header`: the main block of a program unit - `children[1]`
when the unit starts with a header logical line (3 children asserted),
`children[0]` for a headerless main program (2 children asserted). -/
def analyzeMainBlock (unit : Blk) : Option Blk :=
  match unit with
  | Blk.outer _ ((Blk.line _) :: rest) =>
      match rest with
      | [mb, Blk.line _] => some mb
      | _ => none
  | Blk.outer _ [mb, Blk.line _] => some mb
  | _ => none

/-- The arithmetic-`if` scenario line used as the C8 witness input. -/
def arithIfLL : LogicalLineData :=
  (((mapMRawLines (splitLines (chs "      if (x) 10, 20, 30\n      end\n"))).bind
      parseIntoLogicalLines).bind List.head?).getD ⟨[], "", none, [], [], []⟩

/-- The program of the label-lifetime scenario: `10 continue` at logical
line 3, `goto 10` at logical lines 5 and 7 of the main block. -/
def c9MainBlock : Blk :=
  ((parsePipeline (chs ("      program p\n      x = 1\n      y = 2\n" ++
      " 10   continue\n      z = 3\n      goto 10\n      w = 4\n" ++
      "      goto 10\n      end\n"))).bind (fun b =>
    match b with
    | Blk.outer _ [u] => analyzeMainBlock u
    | _ => none)).getD (Blk.inner [])

/-- Soundness of a logical-line parser: every alternative's value
flattens to exactly the consumed prefix. -/
def BSound (p : BP) : Prop :=
  ∀ s v r, (v, r) ∈ p s → flatBs v ++ r = s

/-- The layout discipline under which `reconstruct` is the identity on a
line: comments are free; continuation lines carry five actual spaces in
columns 1-5; initial lines carry their label left-aligned from column 1
padded with spaces through column 6, or six spaces when unlabeled. -/
def goodLine (line : Str) : Bool :=
  match mkRawLine line with
  | none => true
  | some r =>
      if r.type == "comment" then true
      else if r.type == "continuation" then line.take 5 == List.replicate 5 ' '
      else
        match r.label with
        | some n => line.take 6 == padLabel n
        | none => line.take 6 == List.replicate 6 ' '

/-- The claim's comparison: byte equality up to trailing whitespace on
each line (comment lines pass through unchanged, so they are subsumed). -/
def claimEqC1 (a b : Str) : Bool :=
  ((splitLines a).map rstrip) == ((splitLines b).map rstrip)

theorem litMatch_spec : ∀ (pat s v r : Str), litMatch pat s = some (v, r) →
    v ++ r = s ∧ v.length = pat.length := by
  intro pat
  induction pat with
  | nil =>
    intro s v r h
    simp only [litMatch, Option.some.injEq, Prod.mk.injEq] at h
    simp [← h.1, ← h.2]
  | cons p ps ih =>
    intro s v r h
    cases s with
    | nil => simp [litMatch] at h
    | cons c cs =>
      simp only [litMatch] at h
      split at h
      · rw [Option.map_eq_some'] at h
        obtain ⟨⟨w, r2⟩, hw, heq⟩ := h
        obtain ⟨hwr, hlen⟩ := ih cs w r2 hw
        obtain ⟨h1, h2⟩ := Prod.mk.injEq .. ▸ heq
        subst h1; subst h2
        simp [← hwr, hlen]
      · exact absurd h (by simp)

theorem ciMatchV_spec : ∀ (pat s v r : Str), ciMatchV pat s = some (v, r) →
    v ++ r = s ∧ v.length = pat.length := by
  intro pat
  induction pat with
  | nil =>
    intro s v r h
    simp only [ciMatchV, Option.some.injEq, Prod.mk.injEq] at h
    simp [← h.1, ← h.2]
  | cons p ps ih =>
    intro s v r h
    cases s with
    | nil => simp [ciMatchV] at h
    | cons c cs =>
      simp only [ciMatchV] at h
      split at h
      · rw [Option.map_eq_some'] at h
        obtain ⟨⟨w, r2⟩, hw, heq⟩ := h
        obtain ⟨hwr, hlen⟩ := ih cs w r2 hw
        obtain ⟨h1, h2⟩ := Prod.mk.injEq .. ▸ heq
        subst h1; subst h2
        simp [← hwr, hlen]
      · exact absurd h (by simp)

theorem sd_lit (pat : Str) : Sd (litMatch pat) :=
  fun s v r h => (litMatch_spec pat s v r h).1

theorem ne_lit (pat : Str) (hp : pat ≠ []) : Ne1 (litMatch pat) := by
  intro s v r h hv
  have := (litMatch_spec pat s v r h).2
  rw [hv] at this
  exact hp (List.length_eq_zero.mp this.symm)

theorem sd_ci (pat : Str) : Sd (ciMatchV pat) :=
  fun s v r h => (ciMatchV_spec pat s v r h).1

theorem ne_ci (pat : Str) (hp : pat ≠ []) : Ne1 (ciMatchV pat) := by
  intro s v r h hv
  have := (ciMatchV_spec pat s v r h).2
  rw [hv] at this
  exact hp (List.length_eq_zero.mp this.symm)

theorem sd_sat (p : Char → Bool) : Sd (satC p) := by
  intro s v r h
  cases s with
  | nil => simp [satC] at h
  | cons c cs =>
    simp only [satC] at h
    split at h
    · simp only [Option.some.injEq, Prod.mk.injEq] at h
      simp [← h.1, ← h.2]
    · exact absurd h (by simp)

theorem ne_sat (p : Char → Bool) : Ne1 (satC p) := by
  intro s v r h
  cases s with
  | nil => simp [satC] at h
  | cons c cs =>
    simp only [satC] at h
    split at h
    · simp only [Option.some.injEq, Prod.mk.injEq] at h
      simp [← h.1]
    · exact absurd h (by simp)

theorem sd_oneOf (set : List Char) : Sd (oneOfC set) := sd_sat _

theorem ne_oneOf (set : List Char) : Ne1 (oneOfC set) := ne_sat _

theorem sd_seq (a b : CP) (ha : Sd a) (hb : Sd b) : Sd (seqC a b) := by
  intro s v r h
  simp only [seqC, Option.bind_eq_some, Option.map_eq_some'] at h
  obtain ⟨⟨v1, r1⟩, h1, ⟨v2, r2⟩, h2, heq⟩ := h
  obtain ⟨hv, hr⟩ := Prod.mk.injEq .. ▸ heq
  subst hv; subst hr
  rw [List.append_assoc, hb r1 v2 r2 h2, ha s v1 r1 h1]

theorem ne_seq_l (a b : CP) (ha : Ne1 a) : Ne1 (seqC a b) := by
  intro s v r h
  simp only [seqC, Option.bind_eq_some, Option.map_eq_some'] at h
  obtain ⟨⟨v1, r1⟩, h1, ⟨v2, r2⟩, h2, heq⟩ := h
  obtain ⟨hv, hr⟩ := Prod.mk.injEq .. ▸ heq
  subst hv
  have := ha s v1 r1 h1
  simp [this]

theorem ne_seq_r (a b : CP) (hb : Ne1 b) : Ne1 (seqC a b) := by
  intro s v r h
  simp only [seqC, Option.bind_eq_some, Option.map_eq_some'] at h
  obtain ⟨⟨v1, r1⟩, h1, ⟨v2, r2⟩, h2, heq⟩ := h
  obtain ⟨hv, hr⟩ := Prod.mk.injEq .. ▸ heq
  subst hv
  have := hb r1 v2 r2 h2
  simp [this]

theorem sd_alt (a b : CP) (ha : Sd a) (hb : Sd b) : Sd (altC a b) := by
  intro s v r h
  simp only [altC] at h
  split at h
  · rename_i x hx
    cases h
    exact ha s v r hx
  · exact hb s v r h

theorem ne_alt (a b : CP) (ha : Ne1 a) (hb : Ne1 b) : Ne1 (altC a b) := by
  intro s v r h
  simp only [altC] at h
  split at h
  · rename_i x hx
    cases h
    exact ha s v r hx
  · exact hb s v r h

theorem sd_opt (a : CP) (ha : Sd a) : Sd (optC a) := by
  intro s v r h
  simp only [optC] at h
  split at h
  · rename_i x hx
    cases h
    exact ha s v r hx
  · simp only [Option.some.injEq, Prod.mk.injEq] at h
    simp [← h.1, ← h.2]

theorem sd_span1 (p : Char → Bool) : Sd (spanC1 p) := by
  intro s v r h
  simp only [spanC1] at h
  split at h
  · exact absurd h (by simp)
  · simp only [Option.some.injEq, Prod.mk.injEq] at h
    rw [← h.1, ← h.2]
    exact List.takeWhile_append_dropWhile p s

theorem ne_span1 (p : Char → Bool) : Ne1 (spanC1 p) := by
  intro s v r h
  simp only [spanC1] at h
  split at h
  · exact absurd h (by simp)
  · rename_i hne
    simp only [Option.some.injEq, Prod.mk.injEq] at h
    rw [← h.1]
    simpa using hne

theorem sd_span0 (p : Char → Bool) : Sd (fun s => some (spanC p s)) := by
  intro s v r h
  simp only [spanC, Option.some.injEq, Prod.mk.injEq] at h
  rw [← h.1, ← h.2]
  exact List.takeWhile_append_dropWhile p s

theorem sd_notSpan (q : Char) : Sd (notSpan q) := sd_span0 _

theorem sd_digits0 : Sd digitsC0 := sd_span0 _

theorem sd_digits1 : Sd digitsC1 := sd_span1 _

theorem ne_digits1 : Ne1 digitsC1 := ne_span1 _

theorem sd_sign : Sd signC := sd_opt _ (sd_oneOf _)

theorem sd_integer : Sd integerC := sd_seq _ _ sd_sign sd_digits1

theorem ne_integer : Ne1 integerC := ne_seq_r _ _ ne_digits1

theorem sd_basicReal : Sd basicRealC :=
  sd_seq _ _ sd_sign (sd_seq _ _ sd_digits1 (sd_seq _ _ (sd_lit _) sd_digits0))

theorem ne_basicReal : Ne1 basicRealC := ne_seq_r _ _ (ne_seq_l _ _ ne_digits1)

theorem sd_singleExp : Sd singleExpC := sd_seq _ _ (sd_oneOf _) sd_integer

theorem sd_doubleExp : Sd doubleExpC := sd_seq _ _ (sd_oneOf _) sd_integer

theorem sd_single : Sd singleC :=
  sd_alt _ _ (sd_seq _ _ sd_basicReal (sd_opt _ sd_singleExp))
    (sd_seq _ _ sd_integer sd_singleExp)

theorem ne_single : Ne1 singleC :=
  ne_alt _ _ (ne_seq_l _ _ ne_basicReal) (ne_seq_l _ _ ne_integer)

theorem sd_double : Sd doubleC :=
  sd_seq _ _ (sd_alt _ _ sd_basicReal sd_integer) sd_doubleExp

theorem ne_double : Ne1 doubleC := ne_seq_l _ _ (ne_alt _ _ ne_basicReal ne_integer)

theorem sd_real : Sd realC := sd_alt _ _ sd_double sd_single

theorem ne_real : Ne1 realC := ne_alt _ _ ne_double ne_single

theorem sd_logical : Sd logicalC := sd_alt _ _ (sd_ci _) (sd_ci _)

theorem ne_logical : Ne1 logicalC := ne_alt _ _ (ne_ci _ (by decide)) (ne_ci _ (by decide))

theorem sd_charSeg : Sd charSegC :=
  sd_alt _ _ (sd_seq _ _ (sd_lit _) (sd_seq _ _ (sd_notSpan _) (sd_lit _)))
    (sd_seq _ _ (sd_lit _) (sd_seq _ _ (sd_notSpan _) (sd_lit _)))

theorem ne_charSeg : Ne1 charSegC :=
  ne_alt _ _ (ne_seq_l _ _ (ne_lit _ (by decide))) (ne_seq_l _ _ (ne_lit _ (by decide)))

theorem charSegsFuel_spec : ∀ (fuel : Nat) (s v r : Str),
    charSegsFuel fuel s = some (v, r) → v ++ r = s ∧ v ≠ [] := by
  intro fuel
  induction fuel with
  | zero => intro s v r h; simp [charSegsFuel] at h
  | succ f ih =>
    intro s v r h
    simp only [charSegsFuel, Option.bind_eq_some] at h
    obtain ⟨⟨v1, r1⟩, h1, h2⟩ := h
    have hs1 := sd_charSeg s v1 r1 h1
    have hn1 := ne_charSeg s v1 r1 h1
    rcases hrec : charSegsFuel f r1 with _ | ⟨⟨v2, r2⟩⟩
    · rw [hrec] at h2
      simp only [Option.some.injEq, Prod.mk.injEq] at h2
      rw [← h2.1, ← h2.2]
      exact ⟨hs1, hn1⟩
    · rw [hrec] at h2
      simp only [Option.some.injEq, Prod.mk.injEq] at h2
      obtain ⟨hv2, hr2⟩ := ih r1 v2 r2 hrec
      rw [← h2.1, ← h2.2]
      constructor
      · rw [List.append_assoc, hv2, hs1]
      · simp [hn1]

theorem sd_character : Sd characterC := by
  intro s v r h
  exact (charSegsFuel_spec (s.length + 1) s v r h).1

theorem ne_character : Ne1 characterC := by
  intro s v r h
  exact (charSegsFuel_spec (s.length + 1) s v r h).2

theorem sd_comment : Sd commentC := sd_seq _ _ (sd_lit _) (sd_notSpan _)

theorem ne_comment : Ne1 commentC := ne_seq_l _ _ (ne_lit _ (by decide))

theorem sd_name : Sd nameC := sd_seq _ _ (sd_sat _) (sd_span0 _)

theorem ne_name : Ne1 nameC := ne_seq_l _ _ (ne_sat _)

theorem sd_spaces : Sd spacesC := sd_span1 _

theorem ne_spaces : Ne1 spacesC := ne_span1 _

theorem sd_wildcard : Sd wildcardC := by
  intro s v r h
  cases s with
  | nil => simp [wildcardC] at h
  | cons c cs =>
    simp only [wildcardC, Option.some.injEq, Prod.mk.injEq] at h
    simp [← h.1, ← h.2]

theorem ne_wildcard : Ne1 wildcardC := by
  intro s v r h
  cases s with
  | nil => simp [wildcardC] at h
  | cons c cs =>
    simp only [wildcardC, Option.some.injEq, Prod.mk.injEq] at h
    simp [← h.1]

/-- All tokenizer alternatives are sound and consume at least one char. -/
theorem tagAlts_ok : ∀ tp ∈ tagAlts, Sd tp.2 ∧ Ne1 tp.2 := by
  intro tp h
  fin_cases h
  · exact ⟨sd_character, ne_character⟩
  · exact ⟨sd_comment, ne_comment⟩
  · exact ⟨sd_logical, ne_logical⟩
  · exact ⟨sd_ci _, ne_ci _ (by decide)⟩
  · exact ⟨sd_ci _, ne_ci _ (by decide)⟩
  · exact ⟨sd_ci _, ne_ci _ (by decide)⟩
  · exact ⟨sd_ci _, ne_ci _ (by decide)⟩
  · exact ⟨sd_ci _, ne_ci _ (by decide)⟩
  · exact ⟨sd_ci _, ne_ci _ (by decide)⟩
  · exact ⟨sd_ci _, ne_ci _ (by decide)⟩
  · exact ⟨sd_ci _, ne_ci _ (by decide)⟩
  · exact ⟨sd_ci _, ne_ci _ (by decide)⟩
  · exact ⟨sd_ci _, ne_ci _ (by decide)⟩
  · exact ⟨sd_ci _, ne_ci _ (by decide)⟩
  · exact ⟨sd_real, ne_real⟩
  · exact ⟨sd_integer, ne_integer⟩
  · exact ⟨sd_name, ne_name⟩
  · exact ⟨sd_lit _, ne_lit _ (by decide)⟩
  · exact ⟨sd_lit _, ne_lit _ (by decide)⟩
  · exact ⟨sd_lit _, ne_lit _ (by decide)⟩
  · exact ⟨sd_lit _, ne_lit _ (by decide)⟩
  · exact ⟨sd_lit _, ne_lit _ (by decide)⟩
  · exact ⟨sd_lit _, ne_lit _ (by decide)⟩
  · exact ⟨sd_lit _, ne_lit _ (by decide)⟩
  · exact ⟨sd_lit _, ne_lit _ (by decide)⟩
  · exact ⟨sd_lit _, ne_lit _ (by decide)⟩
  · exact ⟨sd_lit _, ne_lit _ (by decide)⟩
  · exact ⟨sd_lit _, ne_lit _ (by decide)⟩
  · exact ⟨sd_lit _, ne_lit _ (by decide)⟩
  · exact ⟨sd_lit _, ne_lit _ (by decide)⟩
  · exact ⟨sd_lit _, ne_lit _ (by decide)⟩
  · exact ⟨sd_lit _, ne_lit _ (by decide)⟩
  · exact ⟨sd_lit _, ne_lit _ (by decide)⟩
  · exact ⟨sd_lit _, ne_lit _ (by decide)⟩
  · exact ⟨sd_spaces, ne_spaces⟩

theorem firstTok_spec : ∀ (alts : List (String × CP)), (∀ tp ∈ alts, Sd tp.2 ∧ Ne1 tp.2) →
    ∀ s t r, firstTok alts s = some (t, r) → t.value ++ r = s ∧ t.value ≠ [] := by
  intro alts
  induction alts with
  | nil => intro _ s t r h; simp [firstTok] at h
  | cons tp rest ih =>
    intro hok s t r h
    obtain ⟨tg, p⟩ := tp
    simp only [firstTok] at h
    split at h
    · rename_i vr hvr
      simp only [Option.some.injEq, Prod.mk.injEq] at h
      obtain ⟨ht, hr⟩ := h
      have hp := hok (tg, p) (by simp)
      rw [← ht, ← hr]
      exact ⟨hp.1 s vr.1 vr.2 hvr, hp.2 s vr.1 vr.2 hvr⟩
    · exact ih (fun q hq => hok q (by simp [hq])) s t r h

theorem nextToken_spec : ∀ s t r, nextToken s = some (t, r) →
    t.value ++ r = s ∧ t.value ≠ [] := by
  intro s t r h
  unfold nextToken at h
  rcases hft : firstTok tagAlts s with _ | x
  case some =>
    obtain ⟨t0, r0⟩ := x
    simp only [hft] at h
    obtain ⟨h1, h2⟩ := Prod.mk.injEq .. ▸ (Option.some.injEq .. ▸ h)
    subst h1; subst h2
    exact firstTok_spec tagAlts tagAlts_ok s t0 r0 hft
  case none =>
    simp only [hft, Option.map_eq_some'] at h
    obtain ⟨⟨v, r0⟩, hv, heq⟩ := h
    obtain ⟨h1, h2⟩ := Prod.mk.injEq .. ▸ heq
    rw [← h2]
    have h3 : t.value = v := by rw [← h1]
    rw [h3]
    exact ⟨sd_wildcard s v r0 hv, ne_wildcard s v r0 hv⟩

theorem nextToken_total : ∀ (c : Char) (cs : Str), (nextToken (c :: cs)).isSome := by
  intro c cs
  simp only [nextToken]
  split
  · simp
  · simp [wildcardC]

theorem tokenizeFuel_sound : ∀ (fuel : Nat) (s : Str),
    joinVals (tokenizeFuel fuel s).1 ++ (tokenizeFuel fuel s).2 = s := by
  intro fuel
  induction fuel with
  | zero => intro s; simp [tokenizeFuel, joinVals]
  | succ f ih =>
    intro s
    simp only [tokenizeFuel]
    rcases hnt : nextToken s with _ | ⟨⟨t, r⟩⟩
    · simp [joinVals]
    · have hspec := nextToken_spec s t r hnt
      simp only [joinVals, List.map_cons, List.flatten_cons, List.append_assoc]
      have := ih r
      simp only [joinVals] at this
      rw [this, hspec.1]

theorem tokenizeFuel_complete : ∀ (fuel : Nat) (s : Str), s.length < fuel →
    (tokenizeFuel fuel s).2 = [] := by
  intro fuel
  induction fuel with
  | zero => intro s h; omega
  | succ f ih =>
    intro s hlen
    cases s with
    | nil =>
      simp only [tokenizeFuel]
      have : nextToken ([] : Str) = none := by
        simp only [nextToken]
        have : firstTok tagAlts [] = none := by decide
        rw [this]
        simp [wildcardC]
      rw [this]
    | cons c cs =>
      simp only [tokenizeFuel]
      rcases hnt : nextToken (c :: cs) with _ | ⟨⟨t, r⟩⟩
      · have := nextToken_total c cs
        rw [hnt] at this
        simp at this
      · have hspec := nextToken_spec (c :: cs) t r hnt
        have hr : r.length < f := by
          have := congrArg List.length hspec.1
          simp only [List.length_append, List.length_cons] at this
          have hv : 0 < t.value.length := List.length_pos.mpr hspec.2
          simp only [List.length_cons] at hlen
          omega
        exact ih r hr

/-- C4: tokenization is total and lossless - `tokenizer.parse` succeeds on
every input string and the concatenation of the token values is exactly
the input. -/
theorem c4_tokenizer_total_lossless (s : Str) :
    ∃ ts, tokenizerParse s = some ts ∧ joinVals ts = s := by
  refine ⟨(tokenizeFuel (s.length + 1) s).1, ?_, ?_⟩
  · simp only [tokenizerParse]
    rw [if_pos]
    simp [tokenizeFuel_complete (s.length + 1) s (by omega)]
  · have h1 := tokenizeFuel_sound (s.length + 1) s
    have h2 := tokenizeFuel_complete (s.length + 1) s (by omega)
    rw [h2, List.append_nil] at h1
    exact h1

theorem char_toNat_inj {c d : Char} (h : c.toNat = d.toNat) : c = d := by
  have hc := Char.ofNat_toNat c
  rw [h, Char.ofNat_toNat d] at hc
  exact hc.symm

theorem length_dropWhile_le2 (p : Char → Bool) (l : List Char) :
    (l.dropWhile p).length ≤ l.length := by
  induction l with
  | nil => simp
  | cons c cs ih =>
    rw [List.dropWhile_cons]
    split
    · calc (cs.dropWhile p).length ≤ cs.length := ih
        _ ≤ (c :: cs).length := by simp
    · exact le_refl _

theorem low_master (c : Char) :
    (low c = 'c' ↔ (c = 'c' ∨ c = 'C')) ∧ (low c = '*' ↔ c = '*') ∧
    (low c = '!' ↔ c = '!') ∧ isBlankC (low c) = isBlankC c := by
  by_cases h : 65 ≤ c.toNat ∧ c.toNat ≤ 90
  · obtain ⟨h1, h2⟩ := h
    have hc := Char.ofNat_toNat c
    interval_cases hn : c.toNat <;> (rw [← hc]; decide)
  · have hlow : low c = c := by unfold low; rw [if_neg h]
    rw [hlow]
    have hC : c ≠ 'C' := by rintro rfl; exact h (by decide)
    refine ⟨⟨fun hh => Or.inl hh, fun hh => ?_⟩, Iff.rfl, Iff.rfl, rfl⟩
    rcases hh with hh | hh
    · exact hh
    · exact absurd hh hC

theorem dropSp_map_low (u : Str) :
    dropSp (u.map low) = (u.dropWhile isBlankC).map low := by
  unfold dropSp
  rw [List.dropWhile_map]
  have hfe : (isBlankC ∘ low) = isBlankC := funext fun c => (low_master c).2.2.2
  rw [hfe]

theorem head_map_low_bang (u : Str) :
    ((u.map low).head? = some '!') ↔ (u.head? = some '!') := by
  cases u with
  | nil => simp
  | cons d ds =>
    simp only [List.map_cons, List.head?_cons, Option.some.injEq]
    exact (low_master d).2.2.1

theorem head_map_low_star (u : Str) :
    ((u.map low).head? = some '*') ↔ (u.head? = some '*') := by
  cases u with
  | nil => simp
  | cons d ds =>
    simp only [List.map_cons, List.head?_cons, Option.some.injEq]
    exact (low_master d).2.1

theorem head_map_low_cletter (u : Str) :
    ((u.map low).head? = some 'c') ↔ (u.head? = some 'c' ∨ u.head? = some 'C') := by
  cases u with
  | nil => simp
  | cons d ds =>
    simp only [List.map_cons, List.head?_cons, Option.some.injEq]
    exact (low_master d).1

/-- C5 (amended): a physical line is classified as a comment iff its
right-stripped form is empty, or begins with `c`, `C` or `*` in the very
first column, or begins with `!` after optional leading blanks.  (Leading
whitespace is tolerated for `!` only.) -/
theorem c5_comment_iff (line : Str) :
    isCommentLine line = true ↔
      (rstrip line = [] ∨ (rstrip line).head? = some 'c' ∨
       (rstrip line).head? = some 'C' ∨ (rstrip line).head? = some '*' ∨
       ((rstrip line).dropWhile isBlankC).head? = some '!') := by
  unfold isCommentLine
  simp only [Bool.or_eq_true, beq_iff_eq, List.isEmpty_iff, List.map_eq_nil_iff]
  rw [dropSp_map_low (rstrip line)]
  rw [head_map_low_bang, head_map_low_star, head_map_low_cletter]
  tauto

/-- C5 (counterexample): the line `" c hello\n"` - a `c` behind one
leading blank - is not classified as a comment although its trimmed
lowered form begins with `c`; the constructor in fact crashes on it (the
continuation assertion fails). -/
theorem c5_counterexample :
    isCommentLine (chs " c hello\n") = false ∧
      c5ClaimTrimmed (chs " c hello\n") = true ∧
      mkRawLine (chs " c hello\n") = none := by decide

/-- C6 (amended): every physical line shorter than 6 columns that the
constructor accepts is either a comment, or an initial line with empty
code and no tokens.  (Short lines can also be comments - for example a
blank line or `"c"` - or crash the constructor when columns 1-5 are
neither blank nor a valid label, so the original claim fails.) -/
theorem c6_short_lines (line : Str) (h : line.length < 6) :
    (mkRawLine line).all
      (fun r => r.type == "comment" ||
        (r.type == "initial" && r.code.isEmpty && r.tokens.isEmpty)) = true := by
  unfold mkRawLine
  cases hc : isCommentLine line with
  | true => simp
  | false =>
    simp only [Bool.false_eq_true, if_false]
    have hdrop : line.drop 6 = [] := List.drop_eq_nil_of_le (by omega)
    rw [hdrop]
    have htok : tokenizerParse ([] : Str) = some [] := by decide
    rw [htok]
    have hlen : ((rstrip line).map low).length < 6 := by
      rw [List.length_map]
      unfold rstrip
      calc ((line.reverse.dropWhile pySpaceC).reverse).length
          = (line.reverse.dropWhile pySpaceC).length := List.length_reverse _
        _ ≤ line.reverse.length := length_dropWhile_le2 _ _
        _ = line.length := List.length_reverse _
        _ < 6 := h
    have hcond : (decide (5 < ((rstrip line).map low).length)) = false :=
      decide_eq_false (by omega)
    simp only [hcond, Bool.false_and, Bool.false_eq_true, if_false]
    cases hlbl : (if ((rstrip line).map low).take 5 |>.any (fun c => !pySpaceC c) then
        (labelParse (((rstrip line).map low).take 5)).map some else some none) with
    | none => simp
    | some lbl =>
      have hfm : firstMatch allPhrases ([] : Str) = none := by decide
      simp only [detectStatement, hfm, Option.getD_none]
      rw [htok]
      simp

/-- C6 (counterexample): the 3-character line `"abc"` is shorter than 6
columns but is not accepted - the label field `abc` raises a parse
failure inside the constructor. -/
theorem c6_counterexample :
    (chs "abc").length < 6 ∧ mkRawLine (chs "abc") = none := by decide

/-- C6 (witness): the short line `"  1\n"` is accepted and falls in the
initial-with-empty-code case of the amended claim. -/
theorem c6_witness :
    (chs "  1\n").length < 6 ∧
      (mkRawLine (chs "  1\n")).all
        (fun r => r.type == "comment" ||
          (r.type == "initial" && r.code.isEmpty && r.tokens.isEmpty)) = true :=
  ⟨by decide, c6_short_lines (chs "  1\n") (by decide)⟩

theorem mkRawLine_cases (line : Str) (r : RawLineData) (h : mkRawLine line = some r) :
    (r.type = "comment" ∧ r.original = line) ∨
    (r.type = "continuation" ∧ r.original = line ∧ r.code = line.drop 6 ∧
      tokenizerParse (line.drop 6) = some r.tokens ∧ r.cont = (line.drop 5).take 1) ∨
    (r.type = "initial" ∧ r.original = line ∧ r.code = line.drop 6 ∧
      tokenizerParse (line.drop 6) = some r.tokens ∧
      r.statement = (detectStatement (line.drop 6)).1 ∧
      tokenizerParse (detectStatement (line.drop 6)).2 = some r.tokensAfter) := by
  unfold mkRawLine at h
  by_cases hc : isCommentLine line = true
  · rw [if_pos hc] at h
    cases h
    left
    exact ⟨rfl, rfl⟩
  · rw [if_neg hc] at h
    rcases htok : tokenizerParse (line.drop 6) with _ | toks
    · simp only [htok] at h
      exact absurd h (by simp)
    · simp only [htok] at h
      by_cases h5 : (5 < ((rstrip line).map low).length &&
          !(((rstrip line).map low).getD 5 ' ' == '0' ||
            ((rstrip line).map low).getD 5 ' ' == ' ')) = true
      · rw [if_pos h5] at h
        by_cases ha : ((((rstrip line).map low).take 5).all pySpaceC) = true
        · rw [if_pos ha] at h
          cases h
          right; left
          exact ⟨rfl, rfl, rfl, rfl, rfl⟩
        · rw [if_neg ha] at h
          exact absurd h (by simp)
      · rw [if_neg h5] at h
        rcases hlbl : (if ((((rstrip line).map low).take 5).any fun c => !pySpaceC c) = true
            then (labelParse (((rstrip line).map low).take 5)).map some
            else some none) with _ | lbl
        · simp only [hlbl] at h
          exact absurd h (by simp)
        · simp only [hlbl] at h
          rcases hta : tokenizerParse (detectStatement (line.drop 6)).2 with _ | ta
          · simp only [hta] at h
            exact absurd h (by simp)
          · simp only [hta] at h
            cases h
            right; right
            exact ⟨rfl, rfl, rfl, rfl, rfl, rfl⟩

theorem ciKw_decomp : ∀ (pat s r : Str), ciKw pat s = some r →
    ∃ pre, s = pre ++ r ∧ pre.map low = pat := by
  intro pat
  induction pat with
  | nil =>
    intro s r h
    simp only [ciKw, Option.some.injEq] at h
    exact ⟨[], by simp [h], rfl⟩
  | cons p ps ih =>
    intro s r h
    cases s with
    | nil => simp [ciKw] at h
    | cons c cs =>
      simp only [ciKw] at h
      split at h
      · rename_i hl
        obtain ⟨pre, hpre, hmap⟩ := ih cs r h
        exact ⟨c :: pre, by simp [hpre], by simp [hmap, hl]⟩
      · exact absurd h (by simp)

theorem map_low_cons {pre : Str} {c : Char} {rest : Str} (h : pre.map low = c :: rest) :
    ∃ a as, pre = a :: as ∧ low a = c ∧ as.map low = rest := by
  cases pre with
  | nil => simp at h
  | cons a as =>
    simp only [List.map_cons, List.cons.injEq] at h
    exact ⟨a, as, rfl, h.1, h.2⟩

theorem ciKw3_decomp {w1 w2 w3 : Char} {u r : Str} (h : ciKw [w1, w2, w3] u = some r) :
    ∃ a b c, u = a :: b :: c :: r ∧ low a = w1 ∧ low b = w2 ∧ low c = w3 := by
  obtain ⟨pre, hpre, hmap⟩ := ciKw_decomp _ u r h
  obtain ⟨a, as, rfl, ha, hmap2⟩ := map_low_cons hmap
  obtain ⟨b, bs, rfl, hb, hmap3⟩ := map_low_cons hmap2
  obtain ⟨c, cs2, rfl, hc2, hmap4⟩ := map_low_cons hmap3
  have hnil : cs2 = [] := by simpa using hmap4
  subst hnil
  exact ⟨a, b, c, by simpa using hpre, ha, hb, hc2⟩

theorem ciKw_head {q : Char} {qs u r : Str} (h : ciKw (q :: qs) u = some r) :
    ∃ a as, u = a :: as ∧ low a = q := by
  cases u with
  | nil => simp [ciKw] at h
  | cons a as =>
    simp only [ciKw] at h
    split at h
    · rename_i hl
      exact ⟨a, as, rfl, hl⟩
    · exact absurd h (by simp)

theorem ciKw_head2 {q1 q2 : Char} {qs u r : Str} (h : ciKw (q1 :: q2 :: qs) u = some r) :
    ∃ a b as, u = a :: b :: as ∧ low a = q1 ∧ low b = q2 := by
  obtain ⟨a, as, rfl, ha⟩ := ciKw_head h
  cases as with
  | nil =>
    simp only [ciKw, ha, if_pos] at h
    simp [ciKw] at h
  | cons b bs =>
    simp only [ciKw, ha, if_pos] at h
    split at h
    · rename_i hl
      exact ⟨a, b, bs, rfl, ha, hl⟩
    · exact absurd h (by simp)

theorem dropSp_idem (u : Str) : dropSp (dropSp u) = dropSp u := by
  induction u with
  | nil => rfl
  | cons c cs ih =>
    by_cases hc : isBlankC c = true
    · simp only [dropSp, List.dropWhile_cons, hc, if_true]
      exact ih
    · simp [dropSp, List.dropWhile_cons, hc]

theorem dropSp_cons_of_nonblank {x : Char} {xs : Str} (hx : ¬ isBlankC x = true) :
    dropSp (x :: xs) = x :: xs := by
  simp [dropSp, List.dropWhile_cons, hx]

theorem mw_head_ne {code : Str} {a : Char} {t2 : Str} (hu : dropSp code = a :: t2)
    {q : Char} (hq : ¬ low a = q) (qs : Str) (ws : List Str) :
    matchWords ((q :: qs) :: ws) code = none := by
  unfold matchWords
  rw [hu]
  simp [ciKw, hq]

theorem mw_two_ne {code : Str} {a b : Char} {t3 : Str} (hu : dropSp code = a :: b :: t3)
    {q1 q2 : Char} (h1 : low a = q1) (h2 : ¬ low b = q2) (qs : Str) (ws : List Str) :
    matchWords ((q1 :: q2 :: qs) :: ws) code = none := by
  unfold matchWords
  rw [hu]
  simp [ciKw, h1, h2]

theorem mw_three_ne {code : Str} {a b c : Char} {t4 : Str}
    (hu : dropSp code = a :: b :: c :: t4)
    {q1 q2 q3 : Char} (h1 : low a = q1) (h2 : low b = q2) (h3 : ¬ low c = q3)
    (qs : Str) (ws : List Str) :
    matchWords ((q1 :: q2 :: q3 :: qs) :: ws) code = none := by
  unfold matchWords
  rw [hu]
  simp [ciKw, h1, h2, h3]

theorem blankC_cases {x : Char} (hx : isBlankC x = true) : x = ' ' ∨ x = '\t' := by
  unfold isBlankC at hx
  rcases Bool.or_eq_true_iff.mp hx with h | h
  · exact Or.inl (by simpa using h)
  · exact Or.inr (by simpa using h)

theorem ciKw_blocked {u : Str} {p : Char} {ps : Str} (hdr : dropSp u = p :: ps)
    {q : Char} (hq : ¬ low p = q) (hq1 : ¬ low ' ' = q) (hq2 : ¬ low '\t' = q)
    (qs : Str) : ciKw (q :: qs) u = none := by
  cases u with
  | nil => simp [dropSp] at hdr
  | cons x xs =>
    by_cases hx : isBlankC x = true
    · rcases blankC_cases hx with rfl | rfl
      · simp [ciKw, hq1]
      · simp [ciKw, hq2]
    · rw [dropSp_cons_of_nonblank hx] at hdr
      obtain ⟨rfl, rfl⟩ : x = p ∧ xs = ps := by
        injection hdr with h1 h2
        exact ⟨h1, h2⟩
      simp [ciKw, hq]

theorem ciKw_blocked2 {u : Str} {p p2 : Char} {ps : Str}
    (hdr : dropSp u = p :: p2 :: ps) {q1 q2 : Char} (h1 : low p = q1)
    (h2 : ¬ low p2 = q2) (hq1 : ¬ low ' ' = q1) (hq2 : ¬ low '\t' = q1)
    (qs : Str) : ciKw (q1 :: q2 :: qs) u = none := by
  cases u with
  | nil => simp [dropSp] at hdr
  | cons x xs =>
    by_cases hx : isBlankC x = true
    · rcases blankC_cases hx with rfl | rfl
      · simp [ciKw, hq1]
      · simp [ciKw, hq2]
    · rw [dropSp_cons_of_nonblank hx] at hdr
      obtain ⟨rfl, h3⟩ : x = p ∧ xs = p2 :: ps := by
        injection hdr with ha hb
        exact ⟨ha, hb⟩
      subst h3
      simp [ciKw, h1, h2]

theorem matchWords_cons_some {w : Str} {ws : List Str} {s r : Str}
    (h : ciKw w (dropSp s) = some r) : matchWords (w :: ws) s = matchWords ws (dropSp r) := by
  conv_lhs => rw [matchWords]
  rw [h]

theorem matchWords_cons_none {w : Str} {ws : List Str} {s : Str}
    (h : ciKw w (dropSp s) = none) : matchWords (w :: ws) s = none := by
  conv_lhs => rw [matchWords]
  rw [h]

theorem firstMatch_cons_none {ws : List Str} {rest : List (List Str)} {code : Str}
    (h : matchWords ws code = none) : firstMatch (ws :: rest) code = firstMatch rest code := by
  conv_lhs => rw [firstMatch]
  rw [h]

theorem firstMatch_cons_some {ws : List Str} {rest : List (List Str)} {code r : Str}
    (h : matchWords ws code = some r) :
    firstMatch (ws :: rest) code = some (joinWords ws, r) := by
  conv_lhs => rw [firstMatch]
  rw [h]

theorem mw_end_second_ne {code : Str} {a b c : Char} {r1 : Str}
    (hu : dropSp code = a :: b :: c :: r1) (h1 : low a = 'e') (h2 : low b = 'n')
    (h3 : low c = 'd') {p : Char} {ps : Str} (hdr : dropSp r1 = p :: ps)
    {q : Char} (hq : ¬ low p = q) (qs : Str) (ws : List Str) :
    matchWords ((chs "end") :: (q :: qs) :: ws) code = none := by
  have hstep : ciKw (chs "end") (dropSp code) = some r1 := by
    rw [hu]
    show ciKw ['e', 'n', 'd'] _ = _
    simp [ciKw, h1, h2, h3]
  rw [matchWords_cons_some hstep]
  exact mw_head_ne (by rw [dropSp_idem]; exact hdr) hq _ _

theorem mw_end_blocked {code : Str} {a b c : Char} {r1 : Str}
    (hu : dropSp code = a :: b :: c :: r1) (h1 : low a = 'e') (h2 : low b = 'n')
    (h3 : low c = 'd') {p : Char} {ps : Str} (hdr : dropSp r1 = p :: ps)
    {q : Char} (hq : ¬ low p = q) (hq1 : ¬ low ' ' = q) (hq2 : ¬ low '\t' = q)
    (qs : Str) (ws : List Str) :
    matchWords ((chs "end" ++ (q :: qs)) :: ws) code = none := by
  apply matchWords_cons_none
  rw [hu]
  have hb2 : ciKw (q :: qs) r1 = none := ciKw_blocked hdr hq hq1 hq2 qs
  show ciKw ('e' :: 'n' :: 'd' :: q :: qs) _ = none
  simp [ciKw, h1, h2, h3, hb2]

theorem mw_end_blocked2 {code : Str} {a b c : Char} {r1 : Str}
    (hu : dropSp code = a :: b :: c :: r1) (h1 : low a = 'e') (h2 : low b = 'n')
    (h3 : low c = 'd') {p p2 : Char} {ps : Str} (hdr : dropSp r1 = p :: p2 :: ps)
    {q1 q2 : Char} (h1p : low p = q1) (h2p : ¬ low p2 = q2)
    (hq1 : ¬ low ' ' = q1) (hq2 : ¬ low '\t' = q1)
    (qs : Str) (ws : List Str) :
    matchWords ((chs "end" ++ (q1 :: q2 :: qs)) :: ws) code = none := by
  apply matchWords_cons_none
  rw [hu]
  have hb2 : ciKw (q1 :: q2 :: qs) r1 = none := ciKw_blocked2 hdr h1p h2p hq1 hq2 qs
  show ciKw ('e' :: 'n' :: 'd' :: q1 :: q2 :: qs) _ = none
  simp [ciKw, h1, h2, h3, hb2]

theorem detect_end_if (code : Str)
    (hm : (matchWords [chs "end", chs "if"] code).isSome = true) :
    (detectStatement code).1 = "end if" := by
  rcases h1 : ciKw (chs "end") (dropSp code) with _ | r1
  · rw [matchWords_cons_none h1] at hm
    exact absurd hm (by simp)
  · rw [matchWords_cons_some h1] at hm
    obtain ⟨a, b, c, hu, ha, hb, hc3⟩ :=
      ciKw3_decomp (show ciKw ['e', 'n', 'd'] (dropSp code) = some r1 from h1)
    rcases h2 : ciKw (chs "if") (dropSp (dropSp r1)) with _ | r2
    · rw [matchWords_cons_none h2] at hm
      exact absurd hm (by simp)
    · rw [matchWords_cons_some h2] at hm
      have h2x := h2
      rw [dropSp_idem r1] at h2x
      obtain ⟨p, ps, hdr, hp⟩ :=
        ciKw_head (show ciKw ('i' :: chs "f") (dropSp r1) = some r2 from h2x)
      have hN0 : matchWords [chs "if"] code = none :=
        mw_head_ne hu (by rw [ha]; decide) _ _
      have hN1 : matchWords [chs "else", chs "if"] code = none :=
        mw_two_ne hu ha (by rw [hb]; decide) _ _
      have hN2 : matchWords [chs "else"] code = none :=
        mw_two_ne hu ha (by rw [hb]; decide) _ _
      have hMW : matchWords [chs "end", chs "if"] code = some (dropSp r2) := by
        rw [matchWords_cons_some h1, matchWords_cons_some h2]
        rfl
      have hFM : firstMatch allPhrases code =
          some (joinWords [chs "end", chs "if"], dropSp r2) := by
        unfold allPhrases
        rw [firstMatch_cons_none hN0, firstMatch_cons_none hN1, firstMatch_cons_none hN2,
            firstMatch_cons_some hMW]
      unfold detectStatement
      rw [hFM]
      show joinWords [chs "end", chs "if"] = "end if"
      decide

theorem detect_end_do (code : Str)
    (hm : (matchWords [chs "end", chs "do"] code).isSome = true) :
    (detectStatement code).1 = "end do" := by
  rcases h1 : ciKw (chs "end") (dropSp code) with _ | r1
  · rw [matchWords_cons_none h1] at hm
    exact absurd hm (by simp)
  · rw [matchWords_cons_some h1] at hm
    obtain ⟨a, b, c, hu, ha, hb, hc3⟩ :=
      ciKw3_decomp (show ciKw ['e', 'n', 'd'] (dropSp code) = some r1 from h1)
    rcases h2 : ciKw (chs "do") (dropSp (dropSp r1)) with _ | r2
    · rw [matchWords_cons_none h2] at hm
      exact absurd hm (by simp)
    · rw [matchWords_cons_some h2] at hm
      have h2x := h2
      rw [dropSp_idem r1] at h2x
      obtain ⟨p, ps, hdr, hp⟩ :=
        ciKw_head (show ciKw ('d' :: chs "o") (dropSp r1) = some r2 from h2x)
      have hN0 : matchWords [chs "if"] code = none :=
        mw_head_ne hu (by rw [ha]; decide) _ _
      have hN1 : matchWords [chs "else", chs "if"] code = none :=
        mw_two_ne hu ha (by rw [hb]; decide) _ _
      have hN2 : matchWords [chs "else"] code = none :=
        mw_two_ne hu ha (by rw [hb]; decide) _ _
      have hN3 : matchWords [chs "end", chs "if"] code = none :=
        mw_end_second_ne hu ha hb hc3 hdr (by rw [hp]; decide) _ _
      have hN4 : matchWords [chs "do"] code = none :=
        mw_head_ne hu (by rw [ha]; decide) _ _
      have hMW : matchWords [chs "end", chs "do"] code = some (dropSp r2) := by
        rw [matchWords_cons_some h1, matchWords_cons_some h2]
        rfl
      have hFM : firstMatch allPhrases code =
          some (joinWords [chs "end", chs "do"], dropSp r2) := by
        unfold allPhrases
        rw [firstMatch_cons_none hN0, firstMatch_cons_none hN1, firstMatch_cons_none hN2, firstMatch_cons_none hN3, firstMatch_cons_none hN4,
            firstMatch_cons_some hMW]
      unfold detectStatement
      rw [hFM]
      show joinWords [chs "end", chs "do"] = "end do"
      decide

theorem detect_end_program (code : Str)
    (hm : (matchWords [chs "end", chs "program"] code).isSome = true) :
    (detectStatement code).1 = "end program" := by
  rcases h1 : ciKw (chs "end") (dropSp code) with _ | r1
  · rw [matchWords_cons_none h1] at hm
    exact absurd hm (by simp)
  · rw [matchWords_cons_some h1] at hm
    obtain ⟨a, b, c, hu, ha, hb, hc3⟩ :=
      ciKw3_decomp (show ciKw ['e', 'n', 'd'] (dropSp code) = some r1 from h1)
    rcases h2 : ciKw (chs "program") (dropSp (dropSp r1)) with _ | r2
    · rw [matchWords_cons_none h2] at hm
      exact absurd hm (by simp)
    · rw [matchWords_cons_some h2] at hm
      have h2x := h2
      rw [dropSp_idem r1] at h2x
      obtain ⟨p, ps, hdr, hp⟩ :=
        ciKw_head (show ciKw ('p' :: chs "rogram") (dropSp r1) = some r2 from h2x)
      have hN0 : matchWords [chs "if"] code = none :=
        mw_head_ne hu (by rw [ha]; decide) _ _
      have hN1 : matchWords [chs "else", chs "if"] code = none :=
        mw_two_ne hu ha (by rw [hb]; decide) _ _
      have hN2 : matchWords [chs "else"] code = none :=
        mw_two_ne hu ha (by rw [hb]; decide) _ _
      have hN3 : matchWords [chs "end", chs "if"] code = none :=
        mw_end_second_ne hu ha hb hc3 hdr (by rw [hp]; decide) _ _
      have hN4 : matchWords [chs "do"] code = none :=
        mw_head_ne hu (by rw [ha]; decide) _ _
      have hN5 : matchWords [chs "end", chs "do"] code = none :=
        mw_end_second_ne hu ha hb hc3 hdr (by rw [hp]; decide) _ _
      have hN6 : matchWords [chs "go", chs "to"] code = none :=
        mw_head_ne hu (by rw [ha]; decide) _ _
      have hN7 : matchWords [chs "call"] code = none :=
        mw_head_ne hu (by rw [ha]; decide) _ _
      have hN8 : matchWords [chs "return"] code = none :=
        mw_head_ne hu (by rw [ha]; decide) _ _
      have hN9 : matchWords [chs "continue"] code = none :=
        mw_head_ne hu (by rw [ha]; decide) _ _
      have hN10 : matchWords [chs "stop"] code = none :=
        mw_head_ne hu (by rw [ha]; decide) _ _
      have hN11 : matchWords [chs "pause"] code = none :=
        mw_head_ne hu (by rw [ha]; decide) _ _
      have hN12 : matchWords [chs "assign"] code = none :=
        mw_head_ne hu (by rw [ha]; decide) _ _
      have hN13 : matchWords [chs "read"] code = none :=
        mw_head_ne hu (by rw [ha]; decide) _ _
      have hN14 : matchWords [chs "write"] code = none :=
        mw_head_ne hu (by rw [ha]; decide) _ _
      have hN15 : matchWords [chs "print"] code = none :=
        mw_head_ne hu (by rw [ha]; decide) _ _
      have hN16 : matchWords [chs "rewind"] code = none :=
        mw_head_ne hu (by rw [ha]; decide) _ _
      have hN17 : matchWords [chs "backspace"] code = none :=
        mw_head_ne hu (by rw [ha]; decide) _ _
      have hN18 : matchWords [chs "endfile"] code = none :=
        by
        rw [show chs "endfile" = chs "end" ++ ('f' :: chs "ile") from rfl]
        exact mw_end_blocked hu ha hb hc3 hdr (by rw [hp]; decide) (by decide) (by decide) _ _
      have hN19 : matchWords [chs "open"] code = none :=
        mw_head_ne hu (by rw [ha]; decide) _ _
      have hN20 : matchWords [chs "close"] code = none :=
        mw_head_ne hu (by rw [ha]; decide) _ _
      have hN21 : matchWords [chs "inquire"] code = none :=
        mw_head_ne hu (by rw [ha]; decide) _ _
      have hN22 : matchWords [chs "integer"] code = none :=
        mw_head_ne hu (by rw [ha]; decide) _ _
      have hN23 : matchWords [chs "real"] code = none :=
        mw_head_ne hu (by rw [ha]; decide) _ _
      have hN24 : matchWords [chs "double", chs "precision"] code = none :=
        mw_head_ne hu (by rw [ha]; decide) _ _
      have hN25 : matchWords [chs "complex"] code = none :=
        mw_head_ne hu (by rw [ha]; decide) _ _
      have hN26 : matchWords [chs "logical"] code = none :=
        mw_head_ne hu (by rw [ha]; decide) _ _
      have hN27 : matchWords [chs "character"] code = none :=
        mw_head_ne hu (by rw [ha]; decide) _ _
      have hN28 : matchWords [chs "dimension"] code = none :=
        mw_head_ne hu (by rw [ha]; decide) _ _
      have hN29 : matchWords [chs "common"] code = none :=
        mw_head_ne hu (by rw [ha]; decide) _ _
      have hN30 : matchWords [chs "equivalence"] code = none :=
        mw_two_ne hu ha (by rw [hb]; decide) _ _
      have hN31 : matchWords [chs "implicit"] code = none :=
        mw_head_ne hu (by rw [ha]; decide) _ _
      have hN32 : matchWords [chs "parameter"] code = none :=
        mw_head_ne hu (by rw [ha]; decide) _ _
      have hN33 : matchWords [chs "external"] code = none :=
        mw_two_ne hu ha (by rw [hb]; decide) _ _
      have hN34 : matchWords [chs "intrinsic"] code = none :=
        mw_head_ne hu (by rw [ha]; decide) _ _
      have hN35 : matchWords [chs "save"] code = none :=
        mw_head_ne hu (by rw [ha]; decide) _ _
      have hN36 : matchWords [chs "entry"] code = none :=
        mw_three_ne hu ha hb (by rw [hc3]; decide) _ _
      have hN37 : matchWords [chs "data"] code = none :=
        mw_head_ne hu (by rw [ha]; decide) _ _
      have hN38 : matchWords [chs "format"] code = none :=
        mw_head_ne hu (by rw [ha]; decide) _ _
      have hN39 : matchWords [chs "program"] code = none :=
        mw_head_ne hu (by rw [ha]; decide) _ _
      have hMW : matchWords [chs "end", chs "program"] code = some (dropSp r2) := by
        rw [matchWords_cons_some h1, matchWords_cons_some h2]
        rfl
      have hFM : firstMatch allPhrases code =
          some (joinWords [chs "end", chs "program"], dropSp r2) := by
        unfold allPhrases
        rw [firstMatch_cons_none hN0, firstMatch_cons_none hN1, firstMatch_cons_none hN2, firstMatch_cons_none hN3, firstMatch_cons_none hN4, firstMatch_cons_none hN5, firstMatch_cons_none hN6, firstMatch_cons_none hN7, firstMatch_cons_none hN8, firstMatch_cons_none hN9, firstMatch_cons_none hN10, firstMatch_cons_none hN11, firstMatch_cons_none hN12, firstMatch_cons_none hN13, firstMatch_cons_none hN14, firstMatch_cons_none hN15, firstMatch_cons_none hN16, firstMatch_cons_none hN17, firstMatch_cons_none hN18, firstMatch_cons_none hN19, firstMatch_cons_none hN20, firstMatch_cons_none hN21, firstMatch_cons_none hN22, firstMatch_cons_none hN23, firstMatch_cons_none hN24, firstMatch_cons_none hN25, firstMatch_cons_none hN26, firstMatch_cons_none hN27, firstMatch_cons_none hN28, firstMatch_cons_none hN29, firstMatch_cons_none hN30, firstMatch_cons_none hN31, firstMatch_cons_none hN32, firstMatch_cons_none hN33, firstMatch_cons_none hN34, firstMatch_cons_none hN35, firstMatch_cons_none hN36, firstMatch_cons_none hN37, firstMatch_cons_none hN38, firstMatch_cons_none hN39,
            firstMatch_cons_some hMW]
      unfold detectStatement
      rw [hFM]
      show joinWords [chs "end", chs "program"] = "end program"
      decide

theorem detect_end_function (code : Str)
    (hm : (matchWords [chs "end", chs "function"] code).isSome = true) :
    (detectStatement code).1 = "end function" := by
  rcases h1 : ciKw (chs "end") (dropSp code) with _ | r1
  · rw [matchWords_cons_none h1] at hm
    exact absurd hm (by simp)
  · rw [matchWords_cons_some h1] at hm
    obtain ⟨a, b, c, hu, ha, hb, hc3⟩ :=
      ciKw3_decomp (show ciKw ['e', 'n', 'd'] (dropSp code) = some r1 from h1)
    rcases h2 : ciKw (chs "function") (dropSp (dropSp r1)) with _ | r2
    · rw [matchWords_cons_none h2] at hm
      exact absurd hm (by simp)
    · rw [matchWords_cons_some h2] at hm
      have h2x := h2
      rw [dropSp_idem r1] at h2x
      obtain ⟨p, p2, ps, hdr, hp, hp2⟩ :=
        ciKw_head2 (show ciKw ('f' :: 'u' :: chs "nction") (dropSp r1) = some r2 from h2x)
      have hN0 : matchWords [chs "if"] code = none :=
        mw_head_ne hu (by rw [ha]; decide) _ _
      have hN1 : matchWords [chs "else", chs "if"] code = none :=
        mw_two_ne hu ha (by rw [hb]; decide) _ _
      have hN2 : matchWords [chs "else"] code = none :=
        mw_two_ne hu ha (by rw [hb]; decide) _ _
      have hN3 : matchWords [chs "end", chs "if"] code = none :=
        mw_end_second_ne hu ha hb hc3 hdr (by rw [hp]; decide) _ _
      have hN4 : matchWords [chs "do"] code = none :=
        mw_head_ne hu (by rw [ha]; decide) _ _
      have hN5 : matchWords [chs "end", chs "do"] code = none :=
        mw_end_second_ne hu ha hb hc3 hdr (by rw [hp]; decide) _ _
      have hN6 : matchWords [chs "go", chs "to"] code = none :=
        mw_head_ne hu (by rw [ha]; decide) _ _
      have hN7 : matchWords [chs "call"] code = none :=
        mw_head_ne hu (by rw [ha]; decide) _ _
      have hN8 : matchWords [chs "return"] code = none :=
        mw_head_ne hu (by rw [ha]; decide) _ _
      have hN9 : matchWords [chs "continue"] code = none :=
        mw_head_ne hu (by rw [ha]; decide) _ _
      have hN10 : matchWords [chs "stop"] code = none :=
        mw_head_ne hu (by rw [ha]; decide) _ _
      have hN11 : matchWords [chs "pause"] code = none :=
        mw_head_ne hu (by rw [ha]; decide) _ _
      have hN12 : matchWords [chs "assign"] code = none :=
        mw_head_ne hu (by rw [ha]; decide) _ _
      have hN13 : matchWords [chs "read"] code = none :=
        mw_head_ne hu (by rw [ha]; decide) _ _
      have hN14 : matchWords [chs "write"] code = none :=
        mw_head_ne hu (by rw [ha]; decide) _ _
      have hN15 : matchWords [chs "print"] code = none :=
        mw_head_ne hu (by rw [ha]; decide) _ _
      have hN16 : matchWords [chs "rewind"] code = none :=
        mw_head_ne hu (by rw [ha]; decide) _ _
      have hN17 : matchWords [chs "backspace"] code = none :=
        mw_head_ne hu (by rw [ha]; decide) _ _
      have hN18 : matchWords [chs "endfile"] code = none :=
        by
        rw [show chs "endfile" = chs "end" ++ ('f' :: 'i' :: chs "le") from rfl]
        exact mw_end_blocked2 hu ha hb hc3 hdr hp (by rw [hp2]; decide) (by decide) (by decide) _ _
      have hN19 : matchWords [chs "open"] code = none :=
        mw_head_ne hu (by rw [ha]; decide) _ _
      have hN20 : matchWords [chs "close"] code = none :=
        mw_head_ne hu (by rw [ha]; decide) _ _
      have hN21 : matchWords [chs "inquire"] code = none :=
        mw_head_ne hu (by rw [ha]; decide) _ _
      have hN22 : matchWords [chs "integer"] code = none :=
        mw_head_ne hu (by rw [ha]; decide) _ _
      have hN23 : matchWords [chs "real"] code = none :=
        mw_head_ne hu (by rw [ha]; decide) _ _
      have hN24 : matchWords [chs "double", chs "precision"] code = none :=
        mw_head_ne hu (by rw [ha]; decide) _ _
      have hN25 : matchWords [chs "complex"] code = none :=
        mw_head_ne hu (by rw [ha]; decide) _ _
      have hN26 : matchWords [chs "logical"] code = none :=
        mw_head_ne hu (by rw [ha]; decide) _ _
      have hN27 : matchWords [chs "character"] code = none :=
        mw_head_ne hu (by rw [ha]; decide) _ _
      have hN28 : matchWords [chs "dimension"] code = none :=
        mw_head_ne hu (by rw [ha]; decide) _ _
      have hN29 : matchWords [chs "common"] code = none :=
        mw_head_ne hu (by rw [ha]; decide) _ _
      have hN30 : matchWords [chs "equivalence"] code = none :=
        mw_two_ne hu ha (by rw [hb]; decide) _ _
      have hN31 : matchWords [chs "implicit"] code = none :=
        mw_head_ne hu (by rw [ha]; decide) _ _
      have hN32 : matchWords [chs "parameter"] code = none :=
        mw_head_ne hu (by rw [ha]; decide) _ _
      have hN33 : matchWords [chs "external"] code = none :=
        mw_two_ne hu ha (by rw [hb]; decide) _ _
      have hN34 : matchWords [chs "intrinsic"] code = none :=
        mw_head_ne hu (by rw [ha]; decide) _ _
      have hN35 : matchWords [chs "save"] code = none :=
        mw_head_ne hu (by rw [ha]; decide) _ _
      have hN36 : matchWords [chs "entry"] code = none :=
        mw_three_ne hu ha hb (by rw [hc3]; decide) _ _
      have hN37 : matchWords [chs "data"] code = none :=
        mw_head_ne hu (by rw [ha]; decide) _ _
      have hN38 : matchWords [chs "format"] code = none :=
        mw_head_ne hu (by rw [ha]; decide) _ _
      have hN39 : matchWords [chs "program"] code = none :=
        mw_head_ne hu (by rw [ha]; decide) _ _
      have hN40 : matchWords [chs "end", chs "program"] code = none :=
        mw_end_second_ne hu ha hb hc3 hdr (by rw [hp]; decide) _ _
      have hN41 : matchWords [chs "function"] code = none :=
        mw_head_ne hu (by rw [ha]; decide) _ _
      have hMW : matchWords [chs "end", chs "function"] code = some (dropSp r2) := by
        rw [matchWords_cons_some h1, matchWords_cons_some h2]
        rfl
      have hFM : firstMatch allPhrases code =
          some (joinWords [chs "end", chs "function"], dropSp r2) := by
        unfold allPhrases
        rw [firstMatch_cons_none hN0, firstMatch_cons_none hN1, firstMatch_cons_none hN2, firstMatch_cons_none hN3, firstMatch_cons_none hN4, firstMatch_cons_none hN5, firstMatch_cons_none hN6, firstMatch_cons_none hN7, firstMatch_cons_none hN8, firstMatch_cons_none hN9, firstMatch_cons_none hN10, firstMatch_cons_none hN11, firstMatch_cons_none hN12, firstMatch_cons_none hN13, firstMatch_cons_none hN14, firstMatch_cons_none hN15, firstMatch_cons_none hN16, firstMatch_cons_none hN17, firstMatch_cons_none hN18, firstMatch_cons_none hN19, firstMatch_cons_none hN20, firstMatch_cons_none hN21, firstMatch_cons_none hN22, firstMatch_cons_none hN23, firstMatch_cons_none hN24, firstMatch_cons_none hN25, firstMatch_cons_none hN26, firstMatch_cons_none hN27, firstMatch_cons_none hN28, firstMatch_cons_none hN29, firstMatch_cons_none hN30, firstMatch_cons_none hN31, firstMatch_cons_none hN32, firstMatch_cons_none hN33, firstMatch_cons_none hN34, firstMatch_cons_none hN35, firstMatch_cons_none hN36, firstMatch_cons_none hN37, firstMatch_cons_none hN38, firstMatch_cons_none hN39, firstMatch_cons_none hN40, firstMatch_cons_none hN41,
            firstMatch_cons_some hMW]
      unfold detectStatement
      rw [hFM]
      show joinWords [chs "end", chs "function"] = "end function"
      decide

theorem detect_end_subroutine (code : Str)
    (hm : (matchWords [chs "end", chs "subroutine"] code).isSome = true) :
    (detectStatement code).1 = "end subroutine" := by
  rcases h1 : ciKw (chs "end") (dropSp code) with _ | r1
  · rw [matchWords_cons_none h1] at hm
    exact absurd hm (by simp)
  · rw [matchWords_cons_some h1] at hm
    obtain ⟨a, b, c, hu, ha, hb, hc3⟩ :=
      ciKw3_decomp (show ciKw ['e', 'n', 'd'] (dropSp code) = some r1 from h1)
    rcases h2 : ciKw (chs "subroutine") (dropSp (dropSp r1)) with _ | r2
    · rw [matchWords_cons_none h2] at hm
      exact absurd hm (by simp)
    · rw [matchWords_cons_some h2] at hm
      have h2x := h2
      rw [dropSp_idem r1] at h2x
      obtain ⟨p, ps, hdr, hp⟩ :=
        ciKw_head (show ciKw ('s' :: chs "ubroutine") (dropSp r1) = some r2 from h2x)
      have hN0 : matchWords [chs "if"] code = none :=
        mw_head_ne hu (by rw [ha]; decide) _ _
      have hN1 : matchWords [chs "else", chs "if"] code = none :=
        mw_two_ne hu ha (by rw [hb]; decide) _ _
      have hN2 : matchWords [chs "else"] code = none :=
        mw_two_ne hu ha (by rw [hb]; decide) _ _
      have hN3 : matchWords [chs "end", chs "if"] code = none :=
        mw_end_second_ne hu ha hb hc3 hdr (by rw [hp]; decide) _ _
      have hN4 : matchWords [chs "do"] code = none :=
        mw_head_ne hu (by rw [ha]; decide) _ _
      have hN5 : matchWords [chs "end", chs "do"] code = none :=
        mw_end_second_ne hu ha hb hc3 hdr (by rw [hp]; decide) _ _
      have hN6 : matchWords [chs "go", chs "to"] code = none :=
        mw_head_ne hu (by rw [ha]; decide) _ _
      have hN7 : matchWords [chs "call"] code = none :=
        mw_head_ne hu (by rw [ha]; decide) _ _
      have hN8 : matchWords [chs "return"] code = none :=
        mw_head_ne hu (by rw [ha]; decide) _ _
      have hN9 : matchWords [chs "continue"] code = none :=
        mw_head_ne hu (by rw [ha]; decide) _ _
      have hN10 : matchWords [chs "stop"] code = none :=
        mw_head_ne hu (by rw [ha]; decide) _ _
      have hN11 : matchWords [chs "pause"] code = none :=
        mw_head_ne hu (by rw [ha]; decide) _ _
      have hN12 : matchWords [chs "assign"] code = none :=
        mw_head_ne hu (by rw [ha]; decide) _ _
      have hN13 : matchWords [chs "read"] code = none :=
        mw_head_ne hu (by rw [ha]; decide) _ _
      have hN14 : matchWords [chs "write"] code = none :=
        mw_head_ne hu (by rw [ha]; decide) _ _
      have hN15 : matchWords [chs "print"] code = none :=
        mw_head_ne hu (by rw [ha]; decide) _ _
      have hN16 : matchWords [chs "rewind"] code = none :=
        mw_head_ne hu (by rw [ha]; decide) _ _
      have hN17 : matchWords [chs "backspace"] code = none :=
        mw_head_ne hu (by rw [ha]; decide) _ _
      have hN18 : matchWords [chs "endfile"] code = none :=
        by
        rw [show chs "endfile" = chs "end" ++ ('f' :: chs "ile") from rfl]
        exact mw_end_blocked hu ha hb hc3 hdr (by rw [hp]; decide) (by decide) (by decide) _ _
      have hN19 : matchWords [chs "open"] code = none :=
        mw_head_ne hu (by rw [ha]; decide) _ _
      have hN20 : matchWords [chs "close"] code = none :=
        mw_head_ne hu (by rw [ha]; decide) _ _
      have hN21 : matchWords [chs "inquire"] code = none :=
        mw_head_ne hu (by rw [ha]; decide) _ _
      have hN22 : matchWords [chs "integer"] code = none :=
        mw_head_ne hu (by rw [ha]; decide) _ _
      have hN23 : matchWords [chs "real"] code = none :=
        mw_head_ne hu (by rw [ha]; decide) _ _
      have hN24 : matchWords [chs "double", chs "precision"] code = none :=
        mw_head_ne hu (by rw [ha]; decide) _ _
      have hN25 : matchWords [chs "complex"] code = none :=
        mw_head_ne hu (by rw [ha]; decide) _ _
      have hN26 : matchWords [chs "logical"] code = none :=
        mw_head_ne hu (by rw [ha]; decide) _ _
      have hN27 : matchWords [chs "character"] code = none :=
        mw_head_ne hu (by rw [ha]; decide) _ _
      have hN28 : matchWords [chs "dimension"] code = none :=
        mw_head_ne hu (by rw [ha]; decide) _ _
      have hN29 : matchWords [chs "common"] code = none :=
        mw_head_ne hu (by rw [ha]; decide) _ _
      have hN30 : matchWords [chs "equivalence"] code = none :=
        mw_two_ne hu ha (by rw [hb]; decide) _ _
      have hN31 : matchWords [chs "implicit"] code = none :=
        mw_head_ne hu (by rw [ha]; decide) _ _
      have hN32 : matchWords [chs "parameter"] code = none :=
        mw_head_ne hu (by rw [ha]; decide) _ _
      have hN33 : matchWords [chs "external"] code = none :=
        mw_two_ne hu ha (by rw [hb]; decide) _ _
      have hN34 : matchWords [chs "intrinsic"] code = none :=
        mw_head_ne hu (by rw [ha]; decide) _ _
      have hN35 : matchWords [chs "save"] code = none :=
        mw_head_ne hu (by rw [ha]; decide) _ _
      have hN36 : matchWords [chs "entry"] code = none :=
        mw_three_ne hu ha hb (by rw [hc3]; decide) _ _
      have hN37 : matchWords [chs "data"] code = none :=
        mw_head_ne hu (by rw [ha]; decide) _ _
      have hN38 : matchWords [chs "format"] code = none :=
        mw_head_ne hu (by rw [ha]; decide) _ _
      have hN39 : matchWords [chs "program"] code = none :=
        mw_head_ne hu (by rw [ha]; decide) _ _
      have hN40 : matchWords [chs "end", chs "program"] code = none :=
        mw_end_second_ne hu ha hb hc3 hdr (by rw [hp]; decide) _ _
      have hN41 : matchWords [chs "function"] code = none :=
        mw_head_ne hu (by rw [ha]; decide) _ _
      have hN42 : matchWords [chs "end", chs "function"] code = none :=
        mw_end_second_ne hu ha hb hc3 hdr (by rw [hp]; decide) _ _
      have hN43 : matchWords [chs "subroutine"] code = none :=
        mw_head_ne hu (by rw [ha]; decide) _ _
      have hMW : matchWords [chs "end", chs "subroutine"] code = some (dropSp r2) := by
        rw [matchWords_cons_some h1, matchWords_cons_some h2]
        rfl
      have hFM : firstMatch allPhrases code =
          some (joinWords [chs "end", chs "subroutine"], dropSp r2) := by
        unfold allPhrases
        rw [firstMatch_cons_none hN0, firstMatch_cons_none hN1, firstMatch_cons_none hN2, firstMatch_cons_none hN3, firstMatch_cons_none hN4, firstMatch_cons_none hN5, firstMatch_cons_none hN6, firstMatch_cons_none hN7, firstMatch_cons_none hN8, firstMatch_cons_none hN9, firstMatch_cons_none hN10, firstMatch_cons_none hN11, firstMatch_cons_none hN12, firstMatch_cons_none hN13, firstMatch_cons_none hN14, firstMatch_cons_none hN15, firstMatch_cons_none hN16, firstMatch_cons_none hN17, firstMatch_cons_none hN18, firstMatch_cons_none hN19, firstMatch_cons_none hN20, firstMatch_cons_none hN21, firstMatch_cons_none hN22, firstMatch_cons_none hN23, firstMatch_cons_none hN24, firstMatch_cons_none hN25, firstMatch_cons_none hN26, firstMatch_cons_none hN27, firstMatch_cons_none hN28, firstMatch_cons_none hN29, firstMatch_cons_none hN30, firstMatch_cons_none hN31, firstMatch_cons_none hN32, firstMatch_cons_none hN33, firstMatch_cons_none hN34, firstMatch_cons_none hN35, firstMatch_cons_none hN36, firstMatch_cons_none hN37, firstMatch_cons_none hN38, firstMatch_cons_none hN39, firstMatch_cons_none hN40, firstMatch_cons_none hN41, firstMatch_cons_none hN42, firstMatch_cons_none hN43,
            firstMatch_cons_some hMW]
      unfold detectStatement
      rw [hFM]
      show joinWords [chs "end", chs "subroutine"] = "end subroutine"
      decide

theorem detect_end_block_data (code : Str)
    (hm : (matchWords [chs "end", chs "block", chs "data"] code).isSome = true) :
    (detectStatement code).1 = "end block data" := by
  rcases h1 : ciKw (chs "end") (dropSp code) with _ | r1
  · rw [matchWords_cons_none h1] at hm
    exact absurd hm (by simp)
  · rw [matchWords_cons_some h1] at hm
    obtain ⟨a, b, c, hu, ha, hb, hc3⟩ :=
      ciKw3_decomp (show ciKw ['e', 'n', 'd'] (dropSp code) = some r1 from h1)
    rcases h2 : ciKw (chs "block") (dropSp (dropSp r1)) with _ | r2
    · rw [matchWords_cons_none h2] at hm
      exact absurd hm (by simp)
    · rw [matchWords_cons_some h2] at hm
      have h2x := h2
      rw [dropSp_idem r1] at h2x
      obtain ⟨p, ps, hdr, hp⟩ :=
        ciKw_head (show ciKw ('b' :: chs "lock") (dropSp r1) = some r2 from h2x)
    -- third keyword of the phrase
      rcases h3 : ciKw (chs "data") (dropSp (dropSp r2)) with _ | r3
      · rw [matchWords_cons_none h3] at hm
        exact absurd hm (by simp)
      · clear hm
        have hN0 : matchWords [chs "if"] code = none :=
          mw_head_ne hu (by rw [ha]; decide) _ _
        have hN1 : matchWords [chs "else", chs "if"] code = none :=
          mw_two_ne hu ha (by rw [hb]; decide) _ _
        have hN2 : matchWords [chs "else"] code = none :=
          mw_two_ne hu ha (by rw [hb]; decide) _ _
        have hN3 : matchWords [chs "end", chs "if"] code = none :=
          mw_end_second_ne hu ha hb hc3 hdr (by rw [hp]; decide) _ _
        have hN4 : matchWords [chs "do"] code = none :=
          mw_head_ne hu (by rw [ha]; decide) _ _
        have hN5 : matchWords [chs "end", chs "do"] code = none :=
          mw_end_second_ne hu ha hb hc3 hdr (by rw [hp]; decide) _ _
        have hN6 : matchWords [chs "go", chs "to"] code = none :=
          mw_head_ne hu (by rw [ha]; decide) _ _
        have hN7 : matchWords [chs "call"] code = none :=
          mw_head_ne hu (by rw [ha]; decide) _ _
        have hN8 : matchWords [chs "return"] code = none :=
          mw_head_ne hu (by rw [ha]; decide) _ _
        have hN9 : matchWords [chs "continue"] code = none :=
          mw_head_ne hu (by rw [ha]; decide) _ _
        have hN10 : matchWords [chs "stop"] code = none :=
          mw_head_ne hu (by rw [ha]; decide) _ _
        have hN11 : matchWords [chs "pause"] code = none :=
          mw_head_ne hu (by rw [ha]; decide) _ _
        have hN12 : matchWords [chs "assign"] code = none :=
          mw_head_ne hu (by rw [ha]; decide) _ _
        have hN13 : matchWords [chs "read"] code = none :=
          mw_head_ne hu (by rw [ha]; decide) _ _
        have hN14 : matchWords [chs "write"] code = none :=
          mw_head_ne hu (by rw [ha]; decide) _ _
        have hN15 : matchWords [chs "print"] code = none :=
          mw_head_ne hu (by rw [ha]; decide) _ _
        have hN16 : matchWords [chs "rewind"] code = none :=
          mw_head_ne hu (by rw [ha]; decide) _ _
        have hN17 : matchWords [chs "backspace"] code = none :=
          mw_head_ne hu (by rw [ha]; decide) _ _
        have hN18 : matchWords [chs "endfile"] code = none := by
          rw [show chs "endfile" = chs "end" ++ ('f' :: chs "ile") from rfl]
          exact mw_end_blocked hu ha hb hc3 hdr (by rw [hp]; decide) (by decide) (by decide) _ _
        have hN19 : matchWords [chs "open"] code = none :=
          mw_head_ne hu (by rw [ha]; decide) _ _
        have hN20 : matchWords [chs "close"] code = none :=
          mw_head_ne hu (by rw [ha]; decide) _ _
        have hN21 : matchWords [chs "inquire"] code = none :=
          mw_head_ne hu (by rw [ha]; decide) _ _
        have hN22 : matchWords [chs "integer"] code = none :=
          mw_head_ne hu (by rw [ha]; decide) _ _
        have hN23 : matchWords [chs "real"] code = none :=
          mw_head_ne hu (by rw [ha]; decide) _ _
        have hN24 : matchWords [chs "double", chs "precision"] code = none :=
          mw_head_ne hu (by rw [ha]; decide) _ _
        have hN25 : matchWords [chs "complex"] code = none :=
          mw_head_ne hu (by rw [ha]; decide) _ _
        have hN26 : matchWords [chs "logical"] code = none :=
          mw_head_ne hu (by rw [ha]; decide) _ _
        have hN27 : matchWords [chs "character"] code = none :=
          mw_head_ne hu (by rw [ha]; decide) _ _
        have hN28 : matchWords [chs "dimension"] code = none :=
          mw_head_ne hu (by rw [ha]; decide) _ _
        have hN29 : matchWords [chs "common"] code = none :=
          mw_head_ne hu (by rw [ha]; decide) _ _
        have hN30 : matchWords [chs "equivalence"] code = none :=
          mw_two_ne hu ha (by rw [hb]; decide) _ _
        have hN31 : matchWords [chs "implicit"] code = none :=
          mw_head_ne hu (by rw [ha]; decide) _ _
        have hN32 : matchWords [chs "parameter"] code = none :=
          mw_head_ne hu (by rw [ha]; decide) _ _
        have hN33 : matchWords [chs "external"] code = none :=
          mw_two_ne hu ha (by rw [hb]; decide) _ _
        have hN34 : matchWords [chs "intrinsic"] code = none :=
          mw_head_ne hu (by rw [ha]; decide) _ _
        have hN35 : matchWords [chs "save"] code = none :=
          mw_head_ne hu (by rw [ha]; decide) _ _
        have hN36 : matchWords [chs "entry"] code = none :=
          mw_three_ne hu ha hb (by rw [hc3]; decide) _ _
        have hN37 : matchWords [chs "data"] code = none :=
          mw_head_ne hu (by rw [ha]; decide) _ _
        have hN38 : matchWords [chs "format"] code = none :=
          mw_head_ne hu (by rw [ha]; decide) _ _
        have hN39 : matchWords [chs "program"] code = none :=
          mw_head_ne hu (by rw [ha]; decide) _ _
        have hN40 : matchWords [chs "end", chs "program"] code = none :=
          mw_end_second_ne hu ha hb hc3 hdr (by rw [hp]; decide) _ _
        have hN41 : matchWords [chs "function"] code = none :=
          mw_head_ne hu (by rw [ha]; decide) _ _
        have hN42 : matchWords [chs "end", chs "function"] code = none :=
          mw_end_second_ne hu ha hb hc3 hdr (by rw [hp]; decide) _ _
        have hN43 : matchWords [chs "subroutine"] code = none :=
          mw_head_ne hu (by rw [ha]; decide) _ _
        have hN44 : matchWords [chs "end", chs "subroutine"] code = none :=
          mw_end_second_ne hu ha hb hc3 hdr (by rw [hp]; decide) _ _
        have hN45 : matchWords [chs "block", chs "data"] code = none :=
          mw_head_ne hu (by rw [ha]; decide) _ _
        have hMW : matchWords [chs "end", chs "block", chs "data"] code = some (dropSp r3) := by
          rw [matchWords_cons_some h1, matchWords_cons_some h2, matchWords_cons_some h3]
          rfl
        have hFM : firstMatch allPhrases code =
            some (joinWords [chs "end", chs "block", chs "data"], dropSp r3) := by
          unfold allPhrases
          rw [firstMatch_cons_none hN0, firstMatch_cons_none hN1, firstMatch_cons_none hN2, firstMatch_cons_none hN3, firstMatch_cons_none hN4, firstMatch_cons_none hN5, firstMatch_cons_none hN6, firstMatch_cons_none hN7, firstMatch_cons_none hN8, firstMatch_cons_none hN9, firstMatch_cons_none hN10, firstMatch_cons_none hN11, firstMatch_cons_none hN12, firstMatch_cons_none hN13, firstMatch_cons_none hN14, firstMatch_cons_none hN15, firstMatch_cons_none hN16, firstMatch_cons_none hN17, firstMatch_cons_none hN18, firstMatch_cons_none hN19, firstMatch_cons_none hN20, firstMatch_cons_none hN21, firstMatch_cons_none hN22, firstMatch_cons_none hN23, firstMatch_cons_none hN24, firstMatch_cons_none hN25, firstMatch_cons_none hN26, firstMatch_cons_none hN27, firstMatch_cons_none hN28, firstMatch_cons_none hN29, firstMatch_cons_none hN30, firstMatch_cons_none hN31, firstMatch_cons_none hN32, firstMatch_cons_none hN33, firstMatch_cons_none hN34, firstMatch_cons_none hN35, firstMatch_cons_none hN36, firstMatch_cons_none hN37, firstMatch_cons_none hN38, firstMatch_cons_none hN39, firstMatch_cons_none hN40, firstMatch_cons_none hN41, firstMatch_cons_none hN42, firstMatch_cons_none hN43, firstMatch_cons_none hN44, firstMatch_cons_none hN45,
              firstMatch_cons_some hMW]
        unfold detectStatement
        rw [hFM]
        show joinWords [chs "end", chs "block", chs "data"] = "end block data"
        decide

/-- C7: statement classification precedence - an initial line whose code
begins with `end if`, `end do`, `end function`, `end subroutine`,
`end program` or `end block data` (case-insensitively, with optional
interleaved blanks, as matched by the phrase matcher itself) gets that
longer phrase as its statement, never plain `end`. -/
theorem c7_end_phrase_precedence (line : Str) (ph : List Str)
    (hph : ph ∈ [[chs "end", chs "if"], [chs "end", chs "do"],
      [chs "end", chs "function"], [chs "end", chs "subroutine"],
      [chs "end", chs "program"], [chs "end", chs "block", chs "data"]])
    (hty : (mkRawLine line).map RawLineData.type = some "initial")
    (hm : (matchWords ph (line.drop 6)).isSome = true) :
    (mkRawLine line).map RawLineData.statement = some (joinWords ph) := by
  rcases hmk : mkRawLine line with _ | r
  · rw [hmk] at hty
    exact absurd hty (by simp)
  · rw [hmk] at hty
    simp only [Option.map_some', Option.some.injEq] at hty
    simp only [Option.map_some', Option.some.injEq]
    rcases mkRawLine_cases line r hmk with ⟨h1, _⟩ | ⟨h1, _⟩ | ⟨_, _, _, _, hst, _⟩
    · rw [h1] at hty
      exact absurd hty (by decide)
    · rw [h1] at hty
      exact absurd hty (by decide)
    · rw [hst]
      simp only [List.mem_cons, List.not_mem_nil, or_false] at hph
      rcases hph with rfl | rfl | rfl | rfl | rfl | rfl
      · rw [detect_end_if (line.drop 6) hm]
        decide
      · rw [detect_end_do (line.drop 6) hm]
        decide
      · rw [detect_end_function (line.drop 6) hm]
        decide
      · rw [detect_end_subroutine (line.drop 6) hm]
        decide
      · rw [detect_end_program (line.drop 6) hm]
        decide
      · rw [detect_end_block_data (line.drop 6) hm]
        decide

/-- C7 (witness): the line `"      end if\n"` is initial, its code begins
with the phrase `end if`, and its statement is `end if`. -/
theorem c7_witness :
    (mkRawLine (chs "      end if\n")).map RawLineData.type = some "initial" ∧
      (mkRawLine (chs "      end if\n")).map RawLineData.statement =
        some (joinWords [chs "end", chs "if"]) :=
  ⟨by decide,
   c7_end_phrase_precedence (chs "      end if\n") [chs "end", chs "if"]
     (by simp) (by decide) (by decide)⟩

theorem firstMatch_append_none : ∀ (pre rest2 : List (List Str)) (code : Str),
    (∀ ws2 ∈ pre, matchWords ws2 code = none) →
    firstMatch (pre ++ rest2) code = firstMatch rest2 code := by
  intro pre
  induction pre with
  | nil =>
    intro rest2 code _
    rfl
  | cons w ps ih =>
    intro rest2 code h
    rw [List.cons_append, firstMatch_cons_none (h w (by simp)),
      ih rest2 code (fun x hx => h x (by simp [hx]))]

/-- C10 (counterexample): the initial line `"      double precision x\n"`
has code beginning with the catalog phrase `double precision`, yet its
statement is `do`, not `double precision`: the catalog entry `do` precedes
`double precision` and classification is first-match, so beginning with
a phrase does not by itself determine the statement. -/
theorem c10_counterexample :
    [chs "double", chs "precision"] ∈ allPhrases ∧
    (matchWords [chs "double", chs "precision"]
        ((chs "      double precision x\n").drop 6)).isSome = true ∧
    (mkRawLine (chs "      double precision x\n")).map RawLineData.type =
      some "initial" ∧
    (mkRawLine (chs "      double precision x\n")).map RawLineData.statement =
      some "do" := by decide

/-- C10 (amended): statement detection is first-match over the catalog of
raw-text phrase matchers: when the code of an initial line matches the
catalog phrase `ws` (optional blanks before and between its words) and
every catalog phrase listed before `ws` fails on that code, the statement
field is the space-joined phrase - even when the matched characters are a
proper prefix of a longer identifier, as in `iffy = 3` receiving
statement `if` - and `tokens_after` is the tokenization of the code
remainder after the match. -/
theorem c10_catalog_first_match (line rest : Str)
    (pre tl : List (List Str)) (ws : List Str)
    (hcat : allPhrases = pre ++ ws :: tl)
    (hpre : ∀ ws2 ∈ pre, matchWords ws2 (line.drop 6) = none)
    (hm : matchWords ws (line.drop 6) = some rest)
    (hty : (mkRawLine line).map RawLineData.type = some "initial") :
    (mkRawLine line).map RawLineData.statement = some (joinWords ws) ∧
      (mkRawLine line).map RawLineData.tokensAfter = tokenizerParse rest := by
  have hdet : detectStatement (line.drop 6) = (joinWords ws, rest) := by
    unfold detectStatement
    rw [hcat, firstMatch_append_none pre (ws :: tl) (line.drop 6) hpre,
      firstMatch_cons_some hm]
    rfl
  rcases hmk : mkRawLine line with _ | r
  · rw [hmk] at hty
    exact absurd hty (by simp)
  · rw [hmk] at hty
    simp only [Option.map_some', Option.some.injEq] at hty
    simp only [Option.map_some', Option.some.injEq]
    rcases mkRawLine_cases line r hmk with ⟨h1, _⟩ | ⟨h1, _⟩ | ⟨_, _, _, _, hst, hta⟩
    · rw [h1] at hty
      exact absurd hty (by decide)
    · rw [h1] at hty
      exact absurd hty (by decide)
    · constructor
      · rw [hst, hdet]
      · rw [hdet] at hta
        exact hta.symm

/-- C10 (witness): the line `"      integerx = 3\n"` - every catalog
phrase before `integer` fails on its code, `integer` matches as a proper
prefix of the identifier `integerx` - receives statement `integer`, and
its `tokens_after` tokenize the remainder `x = 3`. -/
theorem c10_witness :
    joinWords [chs "integer"] = "integer" ∧
    ((mkRawLine (chs "      integerx = 3\n")).map RawLineData.statement =
        some (joinWords [chs "integer"]) ∧
      (mkRawLine (chs "      integerx = 3\n")).map RawLineData.tokensAfter =
        tokenizerParse (chs "x = 3\n")) :=
  ⟨by decide,
   c10_catalog_first_match (chs "      integerx = 3\n") (chs "x = 3\n")
    [[chs "if"], [chs "else", chs "if"], [chs "else"], [chs "end", chs "if"],
     [chs "do"], [chs "end", chs "do"],
     [chs "go", chs "to"], [chs "call"], [chs "return"], [chs "continue"],
     [chs "stop"], [chs "pause"],
     [chs "assign"],
     [chs "read"], [chs "write"], [chs "print"], [chs "rewind"],
     [chs "backspace"], [chs "endfile"], [chs "open"], [chs "close"],
     [chs "inquire"]]
    [[chs "real"], [chs "double", chs "precision"],
     [chs "complex"], [chs "logical"], [chs "character"],
     [chs "dimension"], [chs "common"], [chs "equivalence"], [chs "implicit"],
     [chs "parameter"], [chs "external"], [chs "intrinsic"], [chs "save"],
     [chs "entry"], [chs "data"], [chs "format"],
     [chs "program"], [chs "end", chs "program"], [chs "function"],
     [chs "end", chs "function"], [chs "subroutine"],
     [chs "end", chs "subroutine"], [chs "block", chs "data"],
     [chs "end", chs "block", chs "data"], [chs "end"]]
    [chs "integer"]
    (by decide) (by decide) (by decide) (by decide)⟩

/-- C2 (code bug): on the spec's own scenario input, `new_comments`
leaves the uppercase `C hello` line unchanged - `one_of("c*")` tests the
unlowered original case-sensitively - instead of rewriting it to
`! hello` as the claim and the spec's test scenario require. -/
theorem c2_new_comments_actual :
    (mapMRawLines (splitLines (chs "C hello\n* world\n      end\n"))).map
        newCommentsStr =
      some (chs "C hello\n! world\n      end\n") ∧
    (mapMRawLines (splitLines (chs "C hello\n* world\n      end\n"))).map
        newCommentsStr ≠
      some (chs "! hello\n! world\n      end\n") := by decide

theorem foldl_cond_nil (lbl : Nat) (g : List Nat → Nat → List Nat) :
    ∀ (L : List (Nat × Nat)) (init : List Nat),
      L.filter (fun dl => dl.2 == lbl) = [] →
      L.foldl (fun acc dl => if dl.2 == lbl then g acc dl.1 else acc) init = init := by
  intro L
  induction L with
  | nil => intro init _; rfl
  | cons x L2 ih =>
    intro init hf
    rw [List.filter_cons] at hf
    by_cases hx : (x.2 == lbl) = true
    · rw [if_pos hx] at hf
      simp at hf
    · rw [if_neg hx] at hf
      simp only [List.foldl_cons]
      rw [if_neg hx]
      exact ih init hf

theorem foldl_cond_single (lbl d : Nat) (g : List Nat → Nat → List Nat) :
    ∀ (L : List (Nat × Nat)) (init : List Nat),
      L.filter (fun dl => dl.2 == lbl) = [(d, lbl)] →
      L.foldl (fun acc dl => if dl.2 == lbl then g acc dl.1 else acc) init =
        g init d := by
  intro L
  induction L with
  | nil => intro init h; simp at h
  | cons x L2 ih =>
    intro init hf
    rw [List.filter_cons] at hf
    by_cases hx : (x.2 == lbl) = true
    · rw [if_pos hx] at hf
      have hx1 : x = (d, lbl) := (List.cons.injEq .. ▸ hf).1
      have hx2 : L2.filter (fun dl => dl.2 == lbl) = [] := (List.cons.injEq .. ▸ hf).2
      simp only [List.foldl_cons]
      rw [if_pos hx, hx1]
      exact foldl_cond_nil lbl g L2 (g init d) hx2
    · rw [if_neg hx] at hf
      simp only [List.foldl_cons]
      rw [if_neg hx]
      exact ih init hf

/-- C9: for a label with a unique declaration entry `(d, lbl)` among the
labeled non-format lines of the main block, the final occurrence list is
the declaration line sorted into the collected reference lines, and as a
set it is exactly the union of the declaration line and the reference
lines. -/
theorem c9_label_occurrences (mb : Blk) (lbl d : Nat)
    (h : (labelsOf mb).filter (fun dl => dl.2 == lbl) = [(d, lbl)]) :
    occurFinal mb lbl = List.insertionSort (· ≤ ·) (d :: refsOf mb lbl) ∧
      (occurFinal mb lbl).toFinset = insert d (refsOf mb lbl).toFinset := by
  have h1 : occurAfterRefs mb lbl = [] ++ refsOf mb lbl :=
    foldl_cond_single lbl d (fun acc _ => acc ++ refsOf mb lbl) (labelsOf mb) [] h
  have h2 : occurFinal mb lbl =
      List.insertionSort (· ≤ ·) (occurAfterRefs mb lbl ++ [d]) :=
    foldl_cond_single lbl d (fun acc x => List.insertionSort (· ≤ ·) (acc ++ [x]))
      (labelsOf mb) (occurAfterRefs mb lbl) h
  rw [List.nil_append] at h1
  have hperm : (refsOf mb lbl ++ [d]).Perm (d :: refsOf mb lbl) :=
    List.perm_append_singleton d (refsOf mb lbl)
  have hmain : occurFinal mb lbl = List.insertionSort (· ≤ ·) (d :: refsOf mb lbl) := by
    rw [h2, h1]
    exact List.eq_of_perm_of_sorted
      (((List.perm_insertionSort _ _).trans hperm).trans
        (List.perm_insertionSort _ _).symm)
      (List.sorted_insertionSort _ _) (List.sorted_insertionSort _ _)
  refine ⟨hmain, ?_⟩
  rw [hmain]
  have hp2 : (List.insertionSort (· ≤ ·) (d :: refsOf mb lbl)).Perm
      (d :: refsOf mb lbl) := List.perm_insertionSort _ _
  rw [List.toFinset_eq_of_perm _ _ hp2]
  exact List.toFinset_cons

/-- C8: an `if_block` is built from the head line iff the guard holds -
every successful `if_block` parse starts at a line with statement `if`
and a `then` name-token; and a line with statement `if` but no `then`
token - an arithmetic `if` - never yields an `if_block` and is consumed
by `block_or_line` as an ordinary line, staying at its enclosing body's
depth. -/
theorem c8_if_block_guard :
    (∀ (fuel : Nat) (s : List LogicalLineData) (v : List Blk)
       (r : List LogicalLineData), (v, r) ∈ ifBlockP fuel s →
       ∃ l t, s = l :: t ∧ l.statement = "if" ∧ hasThen l = true) ∧
    (∀ (fuel : Nat) (l : LogicalLineData) (t : List LogicalLineData),
       l.statement = "if" → hasThen l = false →
       ifBlockP fuel (l :: t) = [] ∧
       blockOrLineP fuel (l :: t) = [([Blk.line l], t)]) := by
  have hifEmpty : ∀ (fuel : Nat) (l : LogicalLineData) (t : List LogicalLineData),
      hasThen l = false → ifBlockP fuel (l :: t) = [] := by
    intro fuel l t hth
    cases fuel with
    | zero => rfl
    | succ f =>
      simp only [ifBlockP, hth, Bool.and_false, Bool.false_eq_true, if_false]
  have hdoEmpty : ∀ (fuel : Nat) (l : LogicalLineData) (t : List LogicalLineData),
      l.statement = "if" → doBlockP fuel (l :: t) = [] := by
    intro fuel l t hst
    cases fuel with
    | zero => rfl
    | succ f =>
      have : (l.statement == "do") = false := by rw [hst]; decide
      simp only [doBlockP, this, Bool.false_and, Bool.false_eq_true, if_false]
  constructor
  · intro fuel s v r hmem
    cases fuel with
    | zero => exact absurd hmem (by simp [ifBlockP])
    | succ f =>
      cases s with
      | nil => exact absurd hmem (by simp [ifBlockP])
      | cons l t =>
        by_cases hg : (l.statement == "if" && hasThen l) = true
        · refine ⟨l, t, rfl, ?_, ?_⟩
          · exact eq_of_beq (Bool.and_eq_true .. ▸ hg).1
          · exact (Bool.and_eq_true .. ▸ hg).2
        · rw [show ifBlockP (f + 1) (l :: t) = [] from by
            simp only [ifBlockP, hg, Bool.false_eq_true, if_false]] at hmem
          exact absurd hmem (by simp)
  · intro fuel l t hst hth
    refine ⟨hifEmpty fuel l t hth, ?_⟩
    unfold blockOrLineP bpAlt
    have h1 : bpSat (fun l => nonBlockStmts.contains l.statement) (l :: t) = [] := by
      show (if nonBlockStmts.contains l.statement = true then [([Blk.line l], t)]
            else []) = []
      rw [hst]
      rw [if_neg (by decide)]
    rw [h1, hdoEmpty fuel l t hst, hifEmpty fuel l t hth]
    simp

/-- C8 (witness): `if (x) 10, 20, 30` has statement `if`, no `then`
token, builds no `if_block`, and is consumed as an ordinary line. -/
theorem c8_witness :
    arithIfLL.statement = "if" ∧ hasThen arithIfLL = false ∧
      ifBlockP 5 [arithIfLL] = [] ∧
      blockOrLineP 5 [arithIfLL] = [([Blk.line arithIfLL], [])] := by
  have h1 : arithIfLL.statement = "if" := by decide
  have h2 : hasThen arithIfLL = false := by decide
  have main := c8_if_block_guard.2 5 arithIfLL [] h1 h2
  exact ⟨h1, h2, main.1, main.2⟩

/-- C9 (witness): in the scenario program the label 10 is declared at
line 3, referenced at lines 5 and 7, and its final occurrence list is
`[3, 5, 7]` - the interval `(10, 3, 7)`. -/
theorem c9_witness :
    (labelsOf c9MainBlock).filter (fun dl => dl.2 == 10) = [(3, 10)] ∧
      refsOf c9MainBlock 10 = [5, 7] ∧
      occurFinal c9MainBlock 10 =
        List.insertionSort (· ≤ ·) (3 :: refsOf c9MainBlock 10) ∧
      (occurFinal c9MainBlock 10).toFinset =
        insert 3 (refsOf c9MainBlock 10).toFinset ∧
      occurFinal c9MainBlock 10 = [3, 5, 7] := by
  have h : (labelsOf c9MainBlock).filter (fun dl => dl.2 == 10) = [(3, 10)] := by
    decide
  have main := c9_label_occurrences c9MainBlock 10 3 h
  exact ⟨h, by decide, main.1, main.2, by decide⟩

theorem flatBs_append (xs ys : List Blk) :
    flatBs (xs ++ ys) = flatBs xs ++ flatBs ys := by
  induction xs with
  | nil => rfl
  | cons x xs ih =>
    show flatB x ++ flatBs (xs ++ ys) = (flatB x ++ flatBs xs) ++ flatBs ys
    rw [ih, List.append_assoc]

theorem bpSat_sound (p : LogicalLineData → Bool) : BSound (bpSat p) := by
  intro s v r h
  cases s with
  | nil => exact absurd h (by simp [bpSat])
  | cons l t =>
    simp only [bpSat] at h
    split at h
    · simp only [List.mem_singleton, Prod.mk.injEq] at h
      rw [h.1, h.2]
      rfl
    · exact absurd h (by simp)

theorem bpAlt_sound {p q : BP} (hp : BSound p) (hq : BSound q) :
    BSound (bpAlt p q) := by
  intro s v r h
  rcases List.mem_append.mp h with h2 | h2
  · exact hp s v r h2
  · exact hq s v r h2

theorem elseOptP_sound : BSound elseOptP := by
  intro s v r h
  rcases List.mem_append.mp h with h2 | h2
  · exact bpSat_sound _ s v r h2
  · simp only [List.mem_singleton, Prod.mk.injEq] at h2
    rw [h2.1, h2.2]
    rfl

theorem bpManyOf_sound {p : BP} (hp : BSound p) :
    ∀ fuel, BSound (bpManyOf p fuel) := by
  intro fuel
  induction fuel with
  | zero =>
    intro s v r h
    simp only [bpManyOf, List.mem_singleton, Prod.mk.injEq] at h
    rw [h.1, h.2]
    rfl
  | succ f ih =>
    intro s v r h
    rcases List.mem_append.mp h with h2 | h2
    · rw [List.mem_flatMap] at h2
      obtain ⟨ar, har, h3⟩ := h2
      rw [List.mem_map] at h3
      obtain ⟨br, hbr, heq⟩ := h3
      obtain ⟨hv, hr⟩ := Prod.mk.injEq .. ▸ heq
      rw [← hv, ← hr, flatBs_append, List.append_assoc, ih ar.2 br.1 br.2 hbr]
      exact hp s ar.1 ar.2 har
    · simp only [List.mem_singleton, Prod.mk.injEq] at h2
      rw [h2.1, h2.2]
      rfl

theorem manyLinesP_sound (p : LogicalLineData → Bool) :
    ∀ fuel s v r, (v, r) ∈ manyLinesP p fuel s → v ++ r = s := by
  intro fuel
  induction fuel with
  | zero =>
    intro s v r h
    simp only [manyLinesP, List.mem_singleton, Prod.mk.injEq] at h
    rw [h.1, h.2]
    rfl
  | succ f ih =>
    intro s v r h
    cases s with
    | nil =>
      simp only [manyLinesP, List.mem_singleton, Prod.mk.injEq] at h
      rw [h.1, h.2]
      rfl
    | cons l t =>
      simp only [manyLinesP] at h
      split at h
      · rcases List.mem_append.mp h with h2 | h2
        · rw [List.mem_map] at h2
          obtain ⟨vr, hvr, heq⟩ := h2
          obtain ⟨hv, hr⟩ := Prod.mk.injEq .. ▸ heq
          rw [← hv, ← hr]
          rw [List.cons_append, ih t vr.1 vr.2 hvr]
        · simp only [List.mem_singleton, Prod.mk.injEq] at h2
          rw [h2.1, h2.2]
          rfl
      · simp only [List.mem_singleton, Prod.mk.injEq] at h
        rw [h.1, h.2]
        rfl

theorem blockParsers_sound : ∀ fuel,
    BSound (ifBlockP fuel) ∧ BSound (sectionP fuel) ∧
    BSound (innerElemIfP fuel) ∧ BSound (doBlockP fuel) ∧
    BSound (innerElemDoP fuel) := by
  intro fuel
  induction fuel with
  | zero =>
    refine ⟨?_, ?_, ?_, ?_, ?_⟩ <;>
      (intro s v r h; exact absurd h (by simp [ifBlockP, sectionP, innerElemIfP,
        doBlockP, innerElemDoP]))
  | succ f ih =>
    obtain ⟨ihIf, ihSec, ihIEI, ihDo, ihIED⟩ := ih
    have hIf : BSound (ifBlockP (f + 1)) := by
      intro s v r h
      cases s with
      | nil => exact absurd h (by simp [ifBlockP])
      | cons l rest =>
        simp only [ifBlockP] at h
        split at h
        · rw [List.mem_flatMap] at h
          obtain ⟨sr, hsr, h2⟩ := h
          rcases hrest : sr.2 with _ | ⟨e, rest2⟩
          · simp only [hrest] at h2
            exact absurd h2 (by simp)
          · simp only [hrest] at h2
            split at h2
            · simp only [List.mem_singleton, Prod.mk.injEq] at h2
              rw [h2.1, h2.2]
              have hm := bpManyOf_sound ihSec f rest sr.1 sr.2 hsr
              rw [hrest] at hm
              show (flatBs ([Blk.line l] ++ sr.1 ++ [Blk.line e]) ++ []) ++
                  rest2 = l :: rest
              rw [List.append_nil, flatBs_append, flatBs_append]
              show (([l] ++ flatBs sr.1) ++ ([e] ++ [])) ++ rest2 = l :: rest
              rw [List.append_nil]
              rw [List.append_assoc, List.append_assoc]
              rw [List.singleton_append, List.singleton_append, hm]
            · exact absurd h2 (by simp)
        · exact absurd h (by simp)
    have hSec : BSound (sectionP (f + 1)) := by
      intro s v r h
      simp only [sectionP] at h
      rw [List.mem_flatMap] at h
      obtain ⟨br, hbr, h2⟩ := h
      rw [List.mem_filterMap] at h2
      obtain ⟨er, her, heq⟩ := h2
      have hm := bpManyOf_sound ihIEI f s br.1 br.2 hbr
      have he := elseOptP_sound br.2 er.1 er.2 her
      by_cases hb : br.1.isEmpty = true
      · rw [if_pos hb, List.nil_append] at heq
        split at heq
        · exact absurd heq (by simp)
        · obtain ⟨hv, hr⟩ :=
            Prod.mk.injEq .. ▸ (Option.some.injEq .. ▸ heq)
          rw [← hv, ← hr]
          rw [List.isEmpty_iff.mp hb] at hm
          rw [show flatBs [] ++ br.2 = br.2 from rfl] at hm
          rw [he, hm]
      · rw [if_neg hb] at heq
        rw [List.singleton_append] at heq
        rw [show (Blk.inner br.1 :: er.1).isEmpty = false from rfl] at heq
        simp only [Bool.false_eq_true, if_false] at heq
        obtain ⟨hv, hr⟩ :=
          Prod.mk.injEq .. ▸ (Option.some.injEq .. ▸ heq)
        rw [← hv, ← hr]
        show (flatBs br.1 ++ flatBs er.1) ++ er.2 = s
        rw [List.append_assoc, he, hm]
    have hIEI : BSound (innerElemIfP (f + 1)) := by
      intro s v r h
      simp only [innerElemIfP] at h
      exact bpAlt_sound (bpSat_sound _)
        (bpAlt_sound ihDo (bpAlt_sound ihIf (bpSat_sound _))) s v r h
    have hDo : BSound (doBlockP (f + 1)) := by
      intro s v r h
      cases s with
      | nil => exact absurd h (by simp [doBlockP])
      | cons l rest =>
        simp only [doBlockP] at h
        split at h
        · rw [List.mem_flatMap] at h
          obtain ⟨br, hbr, h2⟩ := h
          rcases hrest : br.2 with _ | ⟨e, rest2⟩
          · simp only [hrest] at h2
            exact absurd h2 (by simp)
          · simp only [hrest] at h2
            split at h2
            · simp only [List.mem_singleton, Prod.mk.injEq] at h2
              rw [h2.1, h2.2]
              have hm := bpManyOf_sound ihIED f rest br.1 br.2 hbr
              rw [hrest] at hm
              show (flatBs ([Blk.line l] ++ [Blk.inner br.1] ++ [Blk.line e]) ++
                  []) ++ rest2 = l :: rest
              rw [List.append_nil, flatBs_append, flatBs_append]
              show (([l] ++ (flatBs br.1 ++ [])) ++ ([e] ++ [])) ++ rest2 =
                l :: rest
              rw [List.append_nil, List.append_nil]
              rw [List.append_assoc, List.append_assoc]
              rw [List.singleton_append, List.singleton_append, hm]
            · exact absurd h2 (by simp)
        · exact absurd h (by simp)
    have hIED : BSound (innerElemDoP (f + 1)) := by
      intro s v r h
      simp only [innerElemDoP] at h
      exact bpAlt_sound (bpSat_sound _)
        (bpAlt_sound ihDo (bpAlt_sound ihIf (bpSat_sound _))) s v r h
    exact ⟨hIf, hSec, hIEI, hDo, hIED⟩

theorem blockOrLineP_sound (fuel : Nat) : BSound (blockOrLineP fuel) := by
  have hw : BSound (fun s => match s with
      | [] => []
      | l :: r => [([Blk.line l], r)]) := by
    intro s v r h
    cases s with
    | nil => exact absurd h (by simp)
    | cons l t =>
      simp only [List.mem_singleton, Prod.mk.injEq] at h
      rw [h.1, h.2]
      rfl
  exact bpAlt_sound (bpSat_sound _)
    (bpAlt_sound (blockParsers_sound fuel).2.2.2.1
      (bpAlt_sound (blockParsers_sound fuel).1 hw))

theorem innerOf_sound {fuel : Nat} {ls : List LogicalLineData} {b : Blk}
    (h : innerOf fuel ls = some b) : flatB b = ls := by
  unfold innerOf at h
  rcases hf : (bpManyOf (blockOrLineP fuel) fuel ls).find? (fun vr => vr.2.isEmpty)
    with _ | vr
  · rw [hf] at h
    exact absurd h (by simp)
  · rw [hf] at h
    obtain hb := Option.some.injEq .. ▸ h
    have hmem := List.mem_of_find?_eq_some hf
    have hpred := List.find?_some hf
    have hsound := bpManyOf_sound (blockOrLineP_sound fuel) fuel ls vr.1 vr.2 hmem
    have hempty : vr.2 = [] := List.isEmpty_iff.mp hpred
    rw [hempty, List.append_nil] at hsound
    rw [← hb]
    exact hsound

theorem midP_sound (fuel : Nat) : BSound (midP fuel) := by
  intro s v r h
  simp only [midP] at h
  rw [List.mem_filterMap] at h
  obtain ⟨vr, hvr, heq⟩ := h
  rw [Option.map_eq_some'] at heq
  obtain ⟨b, hb, heq2⟩ := heq
  obtain ⟨hv, hr⟩ := Prod.mk.injEq .. ▸ heq2
  rw [← hv, ← hr]
  have h1 := manyLinesP_sound _ fuel s vr.1 vr.2 hvr
  have h2 := innerOf_sound hb
  simp only [flatBs, flatB, List.append_nil]
  rw [h2, h1]

theorem topLevelBlockP_sound (kind blkStmt : String) (optFirst : Bool)
    (fuel : Nat) : BSound (topLevelBlockP kind blkStmt optFirst fuel) := by
  intro s v r h
  simp only [topLevelBlockP] at h
  rw [List.mem_flatMap] at h
  obtain ⟨fr, hfr, h2⟩ := h
  rw [List.mem_flatMap] at h2
  obtain ⟨mr, hmr, h3⟩ := h2
  rw [List.mem_map] at h3
  obtain ⟨er, her, heq⟩ := h3
  obtain ⟨hv, hr⟩ := Prod.mk.injEq .. ▸ heq
  rw [← hv, ← hr]
  have hfirst : flatBs fr.1 ++ fr.2 = s := by
    split at hfr
    · rcases List.mem_append.mp hfr with h4 | h4
      · exact bpSat_sound _ s fr.1 fr.2 h4
      · simp only [List.mem_singleton] at h4
        rw [h4]
        rfl
    · exact bpSat_sound _ s fr.1 fr.2 hfr
  have hmid := midP_sound fuel fr.2 mr.1 mr.2 hmr
  have hend := bpSat_sound _ mr.2 er.1 er.2 her
  simp only [flatBs, flatB, List.append_nil]
  rw [flatBs_append, flatBs_append, List.append_assoc, List.append_assoc]
  rw [hend, hmid, hfirst]

theorem programUnitP_sound (fuel : Nat) : BSound (programUnitP fuel) :=
  bpAlt_sound (topLevelBlockP_sound _ _ _ _)
    (bpAlt_sound (topLevelBlockP_sound _ _ _ _)
      (bpAlt_sound (topLevelBlockP_sound _ _ _ _) (topLevelBlockP_sound _ _ _ _)))

theorem sourceP_sound (fuel : Nat) : BSound (sourceP fuel) := by
  intro s v r h
  simp only [sourceP] at h
  rw [List.mem_flatMap] at h
  obtain ⟨ar, har, h2⟩ := h
  rw [List.mem_map] at h2
  obtain ⟨br, hbr, heq⟩ := h2
  obtain ⟨hv, hr⟩ := Prod.mk.injEq .. ▸ heq
  rw [← hv, ← hr]
  have h1 := programUnitP_sound fuel s ar.1 ar.2 har
  have h2 := bpManyOf_sound (programUnitP_sound fuel) fuel ar.2 br.1 br.2 hbr
  simp only [flatBs, flatB, List.append_nil]
  rw [flatBs_append, List.append_assoc, h2, h1]

theorem parseSource_flat {lls : List LogicalLineData} {b : Blk}
    (h : parseSource lls = some b) : flatB b = lls := by
  unfold parseSource at h
  rcases hf : (sourceP (8 * lls.length + 8) lls).find? (fun vr => vr.2.isEmpty)
    with _ | vr
  · simp only [hf] at h
    exact absurd h (by simp)
  · simp only [hf] at h
    have hmem := List.mem_of_find?_eq_some hf
    have hpred := List.find?_some hf
    have hempty : vr.2 = [] := List.isEmpty_iff.mp hpred
    have hsound := sourceP_sound _ lls vr.1 vr.2 hmem
    rw [hempty, List.append_nil] at hsound
    rcases hv1 : vr.1 with _ | ⟨b0, rest⟩
    · simp only [hv1] at h
      exact absurd h (by simp)
    · rcases rest with _ | _
      · simp only [hv1] at h
        have hb : b0 = b := Option.some.injEq .. ▸ h
        rw [← hb]
        rw [hv1] at hsound
        simp only [flatBs, List.append_nil] at hsound
        exact hsound
      · simp only [hv1] at h
        exact absurd h (by simp)

theorem mkRawLine_original {line : Str} {r : RawLineData}
    (h : mkRawLine line = some r) : r.original = line := by
  rcases mkRawLine_cases line r h with ⟨_, ho⟩ | ⟨_, ho, _⟩ | ⟨_, ho, _⟩ <;>
    exact ho

theorem mapMRawLines_originals : ∀ (ls : List Str) (rls : List RawLineData),
    mapMRawLines ls = some rls → rls.map RawLineData.original = ls := by
  intro ls
  induction ls with
  | nil =>
    intro rls h
    simp only [mapMRawLines, Option.some.injEq] at h
    rw [← h]
    rfl
  | cons l ls ih =>
    intro rls h
    simp only [mapMRawLines] at h
    rcases hmk : mkRawLine l with _ | r
    · simp only [hmk] at h
      exact absurd h (by simp)
    · simp only [hmk] at h
      rw [Option.map_eq_some'] at h
      obtain ⟨rls2, h2, heq⟩ := h
      rw [← heq]
      simp only [List.map_cons]
      rw [ih rls2 h2, mkRawLine_original hmk]

theorem mkLogicalLine_children {cs : List RawLineData} {ll : LogicalLineData}
    (h : mkLogicalLine cs = some ll) : ll.children = cs := by
  unfold mkLogicalLine at h
  split at h
  · have h2 := Option.some.injEq .. ▸ h
    rw [← h2]
  · exact absurd h (by simp)

theorem plgAux_flat : ∀ (fuel : Nat) (rls : List RawLineData)
    (lls : List LogicalLineData), plgAux fuel rls = some lls →
    (lls.map LogicalLineData.children).flatten = rls := by
  intro fuel
  induction fuel with
  | zero => intro rls lls h; simp [plgAux] at h
  | succ f ih =>
    intro rls lls h
    cases rls with
    | nil =>
      simp only [plgAux, Option.some.injEq] at h
      rw [← h]
      rfl
    | cons l0 ls0 =>
      simp only [plgAux] at h
      rcases hdw : (l0 :: ls0).dropWhile (fun l => l.type == "comment")
        with _ | ⟨ini, rest2⟩
      · simp only [hdw] at h
        exact absurd h (by simp)
      · simp only [hdw] at h
        split at h
        · rcases hml : mkLogicalLine
              ((l0 :: ls0).takeWhile (fun l => l.type == "comment") ++ [ini] ++
               rest2.takeWhile
                 (fun l => l.type == "comment" || l.type == "continuation"))
            with _ | ll
          · simp only [hml] at h
            exact absurd h (by simp)
          · simp only [hml] at h
            rw [Option.map_eq_some'] at h
            obtain ⟨lls2, h2, heq⟩ := h
            rw [← heq]
            simp only [List.map_cons, List.flatten_cons]
            rw [ih _ lls2 h2, mkLogicalLine_children hml]
            have e1 : rest2.takeWhile
                  (fun l => l.type == "comment" || l.type == "continuation") ++
                rest2.dropWhile
                  (fun l => l.type == "comment" || l.type == "continuation") =
                rest2 := List.takeWhile_append_dropWhile _ _
            have e2 : (l0 :: ls0).takeWhile (fun l => l.type == "comment") ++
                (ini :: rest2) = l0 :: ls0 := by
              rw [← hdw]
              exact List.takeWhile_append_dropWhile _ _
            rw [List.append_assoc, List.append_assoc, e1]
            rw [← List.append_assoc, List.append_assoc, List.singleton_append]
            exact e2
        · exact absurd h (by simp)

theorem parseIntoLogicalLines_flat {rls : List RawLineData}
    {lls : List LogicalLineData} (h : parseIntoLogicalLines rls = some lls) :
    (lls.map LogicalLineData.children).flatten = rls :=
  plgAux_flat _ _ _ h

theorem takeLine_spec : ∀ s : Str,
    (takeLine s).1 ++ (takeLine s).2 = s ∧ (s ≠ [] → (takeLine s).1 ≠ []) := by
  intro s
  induction s with
  | nil => exact ⟨rfl, fun h => absurd rfl h⟩
  | cons c cs ih =>
    constructor
    · by_cases hc : c = '\n'
      · simp [takeLine, hc]
      · simp only [takeLine]
        rw [if_neg hc]
        show c :: (takeLine cs).1 ++ (takeLine cs).2 = c :: cs
        rw [List.cons_append, ih.1]
    · intro _
      by_cases hc : c = '\n'
      · simp [takeLine, hc]
      · simp only [takeLine]
        rw [if_neg hc]
        simp

theorem splitLinesAux_join : ∀ (fuel : Nat) (s : Str), s.length < fuel →
    (splitLinesAux fuel s).flatten = s := by
  intro fuel
  induction fuel with
  | zero => intro s h; omega
  | succ f ih =>
    intro s hlen
    cases s with
    | nil => rfl
    | cons c cs =>
      show ((takeLine (c :: cs)).1 ::
        splitLinesAux f (takeLine (c :: cs)).2).flatten = c :: cs
      rw [List.flatten_cons]
      have h1 := (takeLine_spec (c :: cs)).1
      have h2 := (takeLine_spec (c :: cs)).2 (by simp)
      have hpos : 0 < (takeLine (c :: cs)).1.length := List.length_pos.mpr h2
      have hlt : (takeLine (c :: cs)).2.length < f := by
        have hl := congrArg List.length h1
        simp only [List.length_append, List.length_cons] at hl
        simp only [List.length_cons] at hlen
        omega
      rw [ih _ hlt, h1]

theorem splitLines_join (s : Str) : (splitLines s).flatten = s :=
  splitLinesAux_join _ s (by omega)

theorem flatMap_eq_flatten_map (lls : List LogicalLineData) :
    lls.flatMap LogicalLineData.children =
      (lls.map LogicalLineData.children).flatten := by
  induction lls with
  | nil => rfl
  | cons x xs ih => simp only [List.flatMap_cons, List.map_cons,
      List.flatten_cons, ih]

/-- C3: the `plain` visitor reproduces the input bytes - for every source
text accepted by the full pipeline, the concatenated `original` of every
raw line, in source order, is the input. -/
theorem c3_plain_identity (s : Str) (b : Blk) (hp : parsePipeline s = some b) :
    plainOf b = s := by
  unfold parsePipeline at hp
  rcases h1 : mapMRawLines (splitLines s) with _ | rls
  · simp only [h1] at hp
    exact absurd hp (by simp)
  · simp only [h1] at hp
    rcases h2 : parseIntoLogicalLines rls with _ | lls
    · simp only [h2] at hp
      exact absurd hp (by simp)
    · simp only [h2] at hp
      have hf := parseSource_flat hp
      unfold plainOf rawLinesOfB
      rw [hf, flatMap_eq_flatten_map, parseIntoLogicalLines_flat h2,
        mapMRawLines_originals _ _ h1, splitLines_join]

/-- C3 (witness): `plain` on the parsed two-line program reproduces it. -/
theorem c3_witness :
    (parsePipeline (chs "      program hi\n      end\n")).map plainOf =
      some (chs "      program hi\n      end\n") := by
  rcases hp : parsePipeline (chs "      program hi\n      end\n") with _ | b
  · have hs : (parsePipeline (chs "      program hi\n      end\n")).isSome =
        true := by decide
    rw [hp] at hs
    exact absurd hs (by simp)
  · rw [Option.map_some', c3_plain_identity _ b hp]

theorem tokenizerParse_join {s : Str} {ts : List Tok}
    (h : tokenizerParse s = some ts) : joinVals ts = s := by
  have h3 : (if (tokenizeFuel (s.length + 1) s).2.isEmpty then
      some (tokenizeFuel (s.length + 1) s).1 else none) = some ts := h
  clear h
  rename' h3 => h
  split at h
  · rename_i hemp
    have hs := tokenizeFuel_sound (s.length + 1) s
    have h2 := Option.some.injEq .. ▸ h
    rw [← h2]
    rw [List.isEmpty_iff.mp hemp, List.append_nil] at hs
    exact hs
  · exact absurd h (by simp)

theorem reconLine_eq {line : Str} {r : RawLineData} (hmk : mkRawLine line = some r)
    (hg : goodLine line = true) : reconLine r = line := by
  unfold goodLine at hg
  simp only [hmk] at hg
  rcases mkRawLine_cases line r hmk with ⟨hty, ho⟩ |
    ⟨hty, ho, hcode, htoks, hcont⟩ | ⟨hty, ho, hcode, htoks, _, _⟩
  · have hb : (r.type == "comment") = true := by rw [hty]; rfl
    unfold reconLine
    simp only [hb, if_true]
    exact ho
  · have hb1 : (r.type == "comment") = false := by rw [hty]; rfl
    have hb2 : (r.type == "continuation") = true := by rw [hty]; rfl
    unfold reconLine
    simp only [hb1, hb2, Bool.false_eq_true, if_false, if_true]
    simp only [hb1, hb2, Bool.false_eq_true, if_false, if_true] at hg
    have hg2 : line.take 5 = List.replicate 5 ' ' := eq_of_beq hg
    have hjoin : joinVals r.tokens = line.drop 6 := tokenizerParse_join htoks
    rw [hjoin, hcont, ← hg2]
    have hdrop : line.drop 6 = (line.drop 5).drop 1 := by
      rw [List.drop_drop]
    rw [hdrop, List.append_assoc, List.take_append_drop, List.take_append_drop]
  · have hb1 : (r.type == "comment") = false := by rw [hty]; rfl
    have hb2 : (r.type == "continuation") = false := by rw [hty]; rfl
    unfold reconLine
    simp only [hb1, hb2, Bool.false_eq_true, if_false]
    simp only [hb1, hb2, Bool.false_eq_true, if_false] at hg
    have hjoin : joinVals r.tokens = line.drop 6 := tokenizerParse_join htoks
    rcases hl : r.label with _ | n
    · simp only [hl] at hg ⊢
      rw [hjoin, ← eq_of_beq hg, List.take_append_drop]
    · simp only [hl] at hg ⊢
      rw [hjoin, ← eq_of_beq hg, List.take_append_drop]

theorem reconLines_map : ∀ (ls : List Str) (rls : List RawLineData),
    mapMRawLines ls = some rls → (∀ l ∈ ls, goodLine l = true) →
    rls.map reconLine = ls := by
  intro ls
  induction ls with
  | nil =>
    intro rls h _
    simp only [mapMRawLines, Option.some.injEq] at h
    rw [← h]
    rfl
  | cons l ls ih =>
    intro rls h hg
    simp only [mapMRawLines] at h
    rcases hmk : mkRawLine l with _ | r
    · simp only [hmk] at h
      exact absurd h (by simp)
    · simp only [hmk] at h
      rw [Option.map_eq_some'] at h
      obtain ⟨rls2, h2, heq⟩ := h
      rw [← heq]
      simp only [List.map_cons]
      rw [ih rls2 h2 (fun x hx => hg x (by simp [hx])),
        reconLine_eq hmk (hg l (by simp))]

/-- C1 (amended): for every source text accepted by the pipeline whose
lines satisfy the reconstruct layout discipline (labels written
left-aligned from column 1 and padded with spaces through column 6,
blank label fields as actual spaces), `reconstruct` reproduces the input
exactly - in particular within the claim's trailing-whitespace-and-
comments allowance. -/
theorem c1_reconstruct_roundtrip (s : Str) (b : Blk)
    (hp : parsePipeline s = some b)
    (hg : ∀ l ∈ splitLines s, goodLine l = true) :
    reconstructOf b = s := by
  unfold parsePipeline at hp
  rcases h1 : mapMRawLines (splitLines s) with _ | rls
  · simp only [h1] at hp
    exact absurd hp (by simp)
  · simp only [h1] at hp
    rcases h2 : parseIntoLogicalLines rls with _ | lls
    · simp only [h2] at hp
      exact absurd hp (by simp)
    · simp only [h2] at hp
      have hf := parseSource_flat hp
      unfold reconstructOf rawLinesOfB
      rw [hf, flatMap_eq_flatten_map, parseIntoLogicalLines_flat h2,
        reconLines_map _ _ h1 hg, splitLines_join]

/-- C1 (counterexample): the accepted program `"   10 continue\n      end\n"`
- its label sits in columns 4-5 - reconstructs to
`"10    continue\n      end\n"`, which differs from the input beyond
trailing whitespace: `reconstruct` re-emits the label left-aligned. -/
theorem c1_counterexample :
    (parsePipeline (chs "   10 continue\n      end\n")).map reconstructOf =
      some (chs "10    continue\n      end\n") ∧
    claimEqC1 (chs "10    continue\n      end\n")
      (chs "   10 continue\n      end\n") = false := by decide

/-- C1 (witness): with the label left-aligned the same program
round-trips byte-for-byte. -/
theorem c1_witness :
    (parsePipeline (chs "10    continue\n      end\n")).map reconstructOf =
      some (chs "10    continue\n      end\n") := by
  rcases hp : parsePipeline (chs "10    continue\n      end\n") with _ | b
  · have hs : (parsePipeline (chs "10    continue\n      end\n")).isSome =
        true := by decide
    rw [hp] at hs
    exact absurd hs (by simp)
  · rw [Option.map_some', c1_reconstruct_roundtrip _ b hp (by decide)]
